import Mathlib

/-!
Verification of the acid-list persistent doubly-linked-list engine.

The definitions below are a shallow embedding of the Rust source in
`src/lib.rs`: the tagged link-index encoding (`LinkIndex`), the mapped
state (`AcidList`), the list operations (`move_before`, `move_after`,
`get?`, `set?`, `neighbors?`), and the create/open validation protocol
(`openCheck`, `create`).  Machine integers (`u32`, `u64`) are modelled as
`Nat` with explicit `% 2 ^ w` where the source wraps; Rust `assert!`
aborts are modelled by `Option`/`none`.
-/

namespace AcidVerify

/-- `1 << 31`, the tag bit that marks an encoded link index as a head. -/
def HEAD_FLAG : Nat := 2 ^ 31

/-- Bitwise complement of `HEAD_FLAG` as a `u32` (`!HEAD_FLAG` in the source). -/
def HEAD_MASK : Nat := 2 ^ 32 - 1 - HEAD_FLAG

/-- A tagged slot address: either a payload node or a list head (sentinel). -/
inductive LinkIndex : Type where
  | Node : Nat → LinkIndex
  | Head : Nat → LinkIndex
deriving DecidableEq

namespace LinkIndex

/-- Encode a tagged link index into a raw `u32` word (`LinkIndex::to_node`). -/
def to_node : LinkIndex → Nat
  | .Node n => n
  | .Head n => n ||| HEAD_FLAG

/-- Decode a raw `u32` word back to a tagged link index (`LinkIndex::from_node`). -/
def from_node (idx : Nat) : LinkIndex :=
  if idx &&& HEAD_FLAG = 0 then .Node idx else .Head (idx &&& HEAD_MASK)

end LinkIndex

lemma testBit_ge_of_lt {x n i : Nat} (hx : x < 2 ^ n) (hi : n ≤ i) :
    x.testBit i = false :=
  Nat.testBit_lt_two_pow (lt_of_lt_of_le hx (Nat.pow_le_pow_right (by omega) hi))

lemma two_pow_add_lt {h : Nat} (hh : h < 2 ^ 31) : 2 ^ 31 + h < 2 ^ 32 := by
  have : (2 : Nat) ^ 31 + 2 ^ 31 = 2 ^ 32 := by norm_num
  omega

lemma land_flag_eq_zero {x : Nat} (hx : x < 2 ^ 31) : x &&& HEAD_FLAG = 0 := by
  apply Nat.eq_of_testBit_eq
  intro i
  rw [Nat.testBit_land, Nat.zero_testBit, HEAD_FLAG, Nat.testBit_two_pow]
  rcases Nat.lt_or_ge i 31 with h | h
  · simp [Nat.ne_of_gt h]
  · simp [testBit_ge_of_lt hx h]

lemma lor_flag_eq_add {x : Nat} (hx : x < 2 ^ 31) :
    x ||| HEAD_FLAG = 2 ^ 31 + x := by
  apply Nat.eq_of_testBit_eq
  intro i
  rw [Nat.testBit_lor, HEAD_FLAG, Nat.testBit_two_pow]
  rcases Nat.lt_trichotomy i 31 with hi | hi | hi
  · rw [Nat.testBit_two_pow_add_gt hi]
    simp [Nat.ne_of_gt hi]
  · subst hi
    have h31 : (2 ^ 31 + x).testBit 31 = true := by
      rw [Nat.testBit_two_pow_add_eq, testBit_ge_of_lt hx (le_refl 31)]
      rfl
    rw [h31]
    simp
  · rw [testBit_ge_of_lt (two_pow_add_lt hx) hi]
    simp [Nat.ne_of_lt hi, testBit_ge_of_lt hx (Nat.le_of_lt hi)]

lemma land_flag_of_add {h : Nat} (hh : h < 2 ^ 31) :
    (2 ^ 31 + h) &&& HEAD_FLAG = 2 ^ 31 := by
  apply Nat.eq_of_testBit_eq
  intro i
  rw [Nat.testBit_land, HEAD_FLAG, Nat.testBit_two_pow]
  rcases Nat.lt_trichotomy i 31 with hi | hi | hi
  · simp [Nat.ne_of_gt hi]
  · subst hi
    have h31 : (2 ^ 31 + h).testBit 31 = true := by
      rw [Nat.testBit_two_pow_add_eq, testBit_ge_of_lt hh (le_refl 31)]
      rfl
    rw [h31]
    simp
  · rw [testBit_ge_of_lt (two_pow_add_lt hh) hi]
    simp [Nat.ne_of_lt hi]

lemma land_mask_of_add {h : Nat} (hh : h < 2 ^ 31) :
    (2 ^ 31 + h) &&& HEAD_MASK = h := by
  have hmask : HEAD_MASK = 2 ^ 31 - 1 := by
    rw [HEAD_MASK, HEAD_FLAG]; norm_num
  rw [hmask, Nat.and_pow_two_sub_one_eq_mod, Nat.add_mod_left, Nat.mod_eq_of_lt hh]

/-- Decoding a small word yields the node with that index. -/
lemma from_node_node {w : Nat} (hw : w < 2 ^ 31) :
    LinkIndex.from_node w = .Node w := by
  rw [LinkIndex.from_node, if_pos (land_flag_eq_zero hw)]

/-- Decoding a word with the tag bit set yields the corresponding head. -/
lemma from_node_head {h : Nat} (hh : h < 2 ^ 31) :
    LinkIndex.from_node (2 ^ 31 + h) = .Head h := by
  rw [LinkIndex.from_node, if_neg, land_mask_of_add hh]
  rw [land_flag_of_add hh]
  positivity

/-- The encoded word of `Head h` for `h < 2^31` is `2^31 + h`. -/
lemma to_node_head {h : Nat} (hh : h < 2 ^ 31) :
    LinkIndex.to_node (.Head h) = 2 ^ 31 + h := by
  rw [LinkIndex.to_node, lor_flag_eq_add hh]

lemma to_node_node (n : Nat) : LinkIndex.to_node (.Node n) = n := rfl

/-- Encoded head words carry the tag bit, so they sit at or above `2^31`. -/
lemma to_node_head_ge (h : Nat) : 2 ^ 31 ≤ LinkIndex.to_node (.Head h) := by
  rw [LinkIndex.to_node]
  apply Nat.testBit_implies_ge
  rw [Nat.testBit_lor, HEAD_FLAG, Nat.testBit_two_pow_self, Bool.or_true]

/-- `encode (decode w) = w` for every 32-bit word `w`. -/
lemma to_node_from_node {w : Nat} (hw : w < 2 ^ 32) :
    LinkIndex.to_node (LinkIndex.from_node w) = w := by
  rcases Nat.lt_or_ge w (2 ^ 31) with hlt | hge
  · rw [from_node_node hlt, to_node_node]
  · have hw' : w - 2 ^ 31 < 2 ^ 31 := by omega
    have : w = 2 ^ 31 + (w - 2 ^ 31) := by omega
    rw [this, from_node_head hw', to_node_head hw']

/-- An on-disk `{previous, next}` pair of encoded link-index words. -/
structure Link : Type where
  previous : Nat
  next : Nat
deriving DecidableEq

/-- The mapped state of an acid-list file: the header counts, the heads
array, the node link array, and the node payloads (type `T`). -/
structure AcidList (T : Type) : Type where
  heads : Nat
  nodes : Nat
  headLink : Nat → Link
  nodeLink : Nat → Link
  payload : Nat → T

/-- Decoded neighbor view returned by `neighbors` in the source. -/
structure NodeNeighbors : Type where
  previous : LinkIndex
  next : LinkIndex
deriving DecidableEq

namespace AcidList

variable {T : Type}

/-- Whether a tagged link index addresses an existing slot (the bound a
`head_ptr` / `node_ptr` assert checks). -/
def ValidIdx (s : AcidList T) : LinkIndex → Prop
  | .Node i => i < s.nodes
  | .Head h => h < s.heads

instance (s : AcidList T) (idx : LinkIndex) : Decidable (s.ValidIdx idx) := by
  cases idx with
  | Node i => exact inferInstanceAs (Decidable (i < s.nodes))
  | Head h => exact inferInstanceAs (Decidable (h < s.heads))

/-- Total read of the `Link` stored at a slot. -/
def slotLink (s : AcidList T) : LinkIndex → Link
  | .Node i => s.nodeLink i
  | .Head h => s.headLink h

/-- Write a whole `Link` at a slot (no bound check; helper). -/
def updSlot (s : AcidList T) : LinkIndex → Link → AcidList T
  | .Node i, l => { s with nodeLink := Function.update s.nodeLink i l }
  | .Head h, l => { s with headLink := Function.update s.headLink h l }

/-- Bound-checked read of the `Link` at a tagged slot (`AcidList::link`,
whose `head`/`node` calls `assert!` the index is in range; `none` models
the abort). -/
def link? (s : AcidList T) (idx : LinkIndex) : Option Link :=
  if s.ValidIdx idx then some (s.slotLink idx) else none

/-- Bound-checked write through a raw encoded word (`AcidList::link_mut`). -/
def writeW? (s : AcidList T) (w : Nat) (l : Link) : Option (AcidList T) :=
  let idx := LinkIndex.from_node w
  if s.ValidIdx idx then some (s.updSlot idx l) else none

/-- `self.link_mut(w).previous = p`: read-modify-write of one field. -/
def setPrevW? (s : AcidList T) (w p : Nat) : Option (AcidList T) := do
  let l ← s.link? (LinkIndex.from_node w)
  s.writeW? w { l with previous := p }

/-- `self.link_mut(w).next = n`: read-modify-write of one field. -/
def setNextW? (s : AcidList T) (w n : Nat) : Option (AcidList T) := do
  let l ← s.link? (LinkIndex.from_node w)
  s.writeW? w { l with next := n }

/-- `AcidList::get`: borrow node `idx`'s payload; aborts when out of range. -/
def get? (s : AcidList T) (idx : Nat) : Option T :=
  if idx < s.nodes then some (s.payload idx) else none

/-- `AcidList::set`: overwrite node `idx`'s payload; aborts when out of range. -/
def set? (s : AcidList T) (idx : Nat) (value : T) : Option (AcidList T) :=
  if idx < s.nodes then
    some { s with payload := Function.update s.payload idx value }
  else none

/-- `AcidList::neighbors`: read and decode both fields of a slot's link. -/
def neighbors? (s : AcidList T) (idx : LinkIndex) : Option NodeNeighbors :=
  (s.link? idx).map fun l =>
    { previous := LinkIndex.from_node l.previous
      next := LinkIndex.from_node l.next }

/-- The five-write relink of `AcidList::move_to`, performed in source
order; each write is bound-checked like the mutable accessors it uses. -/
def move_to? (s : AcidList T) (from_idx : Nat) (fr tgt : Link) :
    Option (AcidList T) := do
  let s1 ← s.setPrevW? fr.next fr.previous
  let s2 ← s1.setNextW? fr.previous fr.next
  let s3 ← s2.writeW? from_idx tgt
  let s4 ← s3.setPrevW? tgt.next from_idx
  let s5 ← s4.setNextW? tgt.previous from_idx
  pure s5

/-- `AcidList::move_before`: relink node `from_idx` immediately before
`to_next_idx`.  `none` models an `assert!` abort. -/
def move_before (s : AcidList T) (from_idx : Nat) (to_next_idx : LinkIndex) :
    Option (AcidList T) :=
  if LinkIndex.Node from_idx = to_next_idx then none
  else do
    let fr ← s.link? (.Node from_idx)
    if fr.next = to_next_idx.to_node then
      pure s
    else do
      let anchor ← s.link? to_next_idx
      s.move_to? from_idx fr { previous := anchor.previous
                               next := to_next_idx.to_node }

/-- `AcidList::move_after`: relink node `from_idx` immediately after
`to_previous_idx`.  `none` models an `assert!` abort. -/
def move_after (s : AcidList T) (from_idx : Nat) (to_previous_idx : LinkIndex) :
    Option (AcidList T) :=
  if LinkIndex.Node from_idx = to_previous_idx then none
  else do
    let fr ← s.link? (.Node from_idx)
    if fr.previous = to_previous_idx.to_node then
      pure s
    else do
      let anchor ← s.link? to_previous_idx
      s.move_to? from_idx fr { previous := to_previous_idx.to_node
                               next := anchor.next }

end AcidList

/-! ### Header, layout and the create/open validation protocol -/

/-- `align_to::<T>(offset)` from the source: round `off` up to a multiple
of the alignment `a`. -/
def align_to (a off : Nat) : Nat := (off + (a - 1)) / a * a

/-- The fixed magic word `"ACID"`. -/
def HEADER_MAGIC : Nat := 0x41434944

/-- `size_of::<Header<T>>()`: four `u32` fields plus a zero-sized marker. -/
def headerSize : Nat := 16

/-- `size_of::<Link>()`: two `u32` fields. -/
def linkSize : Nat := 8

/-- `align_of::<Link>()`. -/
def linkAlign : Nat := 4

/-- `align_of::<Node<T>>()` for a payload with alignment `alignT`. -/
def nodeAlign (alignT : Nat) : Nat := max linkAlign alignT

/-- `size_of::<Node<T>>()` for a payload of size `szT`, alignment `alignT`
(`repr(C)` struct `{ link: Link, contents: T }`). -/
def nodeSize (szT alignT : Nat) : Nat :=
  align_to (nodeAlign alignT) (align_to alignT linkSize + szT)

/-- `Header::heads_offset`. -/
def heads_offset : Nat := align_to linkAlign headerSize

/-- `Header::nodes_offset`. -/
def nodes_offset (szT alignT heads : Nat) : Nat :=
  align_to (nodeAlign alignT) (heads_offset + heads * linkSize)

/-- `Header::file_size`. -/
def file_size (szT alignT heads nodes : Nat) : Nat :=
  nodes_offset szT alignT heads + nodes * nodeSize szT alignT

/-- The `usize::max_value()` of the modelled 64-bit platform. -/
def usizeMax : Nat := 2 ^ 64 - 1

/-- The recoverable errors `open` can report. -/
inductive OpenError : Type where
  | NotInitialized
  | WrongArchitecture
  | WrongDataType
deriving DecidableEq

/-- The prefix of a backing file that `open` inspects: its length and the
four header fields stored at offset 0. -/
structure FileImage : Type where
  len : Nat
  magic : Nat
  data_size : Nat
  heads : Nat
  nodes : Nat
deriving DecidableEq

/-- The validation sequence of `AcidList::open`, in source order: the
length/addressability checks (before any dereference of the mapping),
then magic, payload size, and shape.  On success it returns the header's
`{heads, nodes}` view. -/
def openCheck (szT alignT : Nat) (f : FileImage) : Except OpenError (Nat × Nat) :=
  if f.len > usizeMax then .error .WrongArchitecture
  else if f.len < headerSize then .error .NotInitialized
  else if f.magic ≠ HEADER_MAGIC then .error .WrongArchitecture
  else if f.data_size ≠ szT then .error .WrongDataType
  else if f.heads < 1 ∨ file_size szT alignT f.heads f.nodes > usizeMax
          ∨ f.len ≠ file_size szT alignT f.heads f.nodes then
    .error .NotInitialized
  else .ok (f.heads, f.nodes)

/-- The header/zero part of the file image `create` produces. -/
def createImage (szT alignT heads nodes : Nat) : FileImage :=
  { len := file_size szT alignT heads nodes
    magic := HEADER_MAGIC
    data_size := szT % 2 ^ 32
    heads := heads
    nodes := nodes }

namespace AcidList

variable {T : Type}

/-- The freshly truncated file of `create`: `set_len` fills with zero
bytes, so every link word and payload byte reads as zero. -/
def zeroState (heads nodes : Nat) (t0 : T) : AcidList T :=
  { heads := heads
    nodes := nodes
    headLink := fun _ => { previous := 0, next := 0 }
    nodeLink := fun _ => { previous := 0, next := 0 }
    payload := fun _ => t0 }

/-- The head-initialization loop of `create`: for `head_idx in 0..n`,
write a self-loop through `link_mut(Head(head_idx).to_node())`. -/
def initHeadsAux (s : AcidList T) : Nat → Option (AcidList T)
  | 0 => some s
  | n + 1 => do
    let s' ← initHeadsAux s n
    let w := LinkIndex.to_node (.Head n)
    s'.writeW? w { previous := w, next := w }

/-- The node-threading loop of `create`: for `node_idx in 0..n`, store
the wrapping numeric neighbors. -/
def initNodesAux (s : AcidList T) : Nat → Option (AcidList T)
  | 0 => some s
  | n + 1 => do
    let s' ← initNodesAux s n
    s'.writeW? n { previous := (n + (2 ^ 32 - 1)) % 2 ^ 32
                   next := (n + 1) % 2 ^ 32 }

/-- The initialization performed by `create` after its internal `open`:
self-loop every head, then (if `nodes > 0`) thread all nodes into list 0. -/
def createInit (heads nodes : Nat) (t0 : T) : Option (AcidList T) := do
  let s ← initHeadsAux (zeroState heads nodes t0) heads
  if nodes > 0 then do
    let s ← initNodesAux s nodes
    let headw := LinkIndex.to_node (.Head 0)
    let s ← s.setPrevW? 0 headw
    let s ← s.setNextW? (nodes - 1) headw
    s.writeW? headw { previous := nodes - 1, next := 0 }
  else
    pure s

/-- `AcidList::create`: build the file image (length `file_size`, header
at offset 0, rest zero), validate it exactly as `open` does, then
initialize the lists.  Filesystem failures are outside the model. -/
def create (szT alignT heads nodes : Nat) (t0 : T) :
    Option (FileImage × AcidList T) :=
  let f : FileImage := AcidVerify.createImage szT alignT heads nodes
  match openCheck szT alignT f with
  | .error _ => none
  | .ok _ => (createInit heads nodes t0).map (fun s => (f, s))

/-! ### The §3 invariants -/

/-- The stored `next` word of the slot addressed by the word `w`. -/
def nextW (s : AcidList T) (w : Nat) : Nat :=
  (s.slotLink (LinkIndex.from_node w)).next

/-- The stored `previous` word of the slot addressed by the word `w`. -/
def prevW (s : AcidList T) (w : Nat) : Nat :=
  (s.slotLink (LinkIndex.from_node w)).previous

/-- Iterated `next` traversal starting from the word `w`. -/
def nextIter (s : AcidList T) (w : Nat) : Nat → Nat
  | 0 => w
  | k + 1 => s.nextW (s.nextIter w k)

/-- Node `i` lies on head `h`'s `next`-cycle. -/
def onHeadCycle (s : AcidList T) (h i : Nat) : Prop :=
  ∃ k, s.nextIter (LinkIndex.to_node (.Head h)) k = i

/-- §3 invariant (1): every `previous`/`next` field of a valid slot
decodes to a valid head or node index. -/
def Inv1 (s : AcidList T) : Prop :=
  ∀ idx : LinkIndex, s.ValidIdx idx →
    s.ValidIdx (LinkIndex.from_node (s.slotLink idx).next) ∧
    s.ValidIdx (LinkIndex.from_node (s.slotLink idx).previous)

/-- §3 invariant (2): linkage is symmetric; for every valid slot `X`,
`slot(X.next).previous == X` and `slot(X.previous).next == X`. -/
def Inv2 (s : AcidList T) : Prop :=
  ∀ idx : LinkIndex, s.ValidIdx idx →
    s.prevW (s.nextW idx.to_node) = idx.to_node ∧
    s.nextW (s.prevW idx.to_node) = idx.to_node

/-- §3 invariant (3): every node is on exactly one head's `next`-cycle. -/
def Inv3 (s : AcidList T) : Prop :=
  ∀ i, i < s.nodes → ∃! h, h < s.heads ∧ s.onHeadCycle h i

/-- §3 invariant (4): a head with no node on its `next`-cycle (an empty
list) points to itself in both directions. -/
def Inv4 (s : AcidList T) : Prop :=
  ∀ h, h < s.heads → (∀ i, i < s.nodes → ¬ s.onHeadCycle h i) →
    s.nextW (LinkIndex.to_node (.Head h)) = LinkIndex.to_node (.Head h) ∧
    s.prevW (LinkIndex.to_node (.Head h)) = LinkIndex.to_node (.Head h)

/-- The §3 data-model bounds: at least one head, and both counts within
the `2^31` index space the tagged encoding supports. -/
def WF (s : AcidList T) : Prop :=
  1 ≤ s.heads ∧ s.heads ≤ 2 ^ 31 ∧ s.nodes ≤ 2 ^ 31

/-- All §3 structural invariants together. -/
def Inv (s : AcidList T) : Prop :=
  s.Inv1 ∧ s.Inv2 ∧ s.Inv3 ∧ s.Inv4

end AcidList

/-! ### Concrete scenario states -/

/-- §8 scenario 4 start state: `Head(0)` empty and nodes `0..9` threaded
in index order in list 1. -/
def lruStart : AcidList Unit :=
  { heads := 2
    nodes := 10
    headLink := fun h =>
      if h = 0 then { previous := 2 ^ 31, next := 2 ^ 31 }
      else { previous := 9, next := 0 }
    nodeLink := fun i =>
      { previous := if i = 0 then 2 ^ 31 + 1 else i - 1
        next := if i = 9 then 2 ^ 31 + 1 else i + 1 }
    payload := fun _ => () }

/-- Replay of the accesses `5, 3, 5` via `move_before(x, Head(0))`. -/
def lruRun : Option (AcidList Unit) := do
  let s1 ← lruStart.move_before 5 (.Head 0)
  let s2 ← s1.move_before 3 (.Head 0)
  s2.move_before 5 (.Head 0)

/-- A well-formed one-head, one-node state: list 0 contains node 0. -/
def oneNodeState : AcidList Unit :=
  { heads := 1
    nodes := 1
    headLink := fun _ => { previous := 0, next := 0 }
    nodeLink := fun _ => { previous := 2 ^ 31, next := 2 ^ 31 }
    payload := fun _ => () }

/-- A well-formed one-head, two-node state: list 0 visits node 0 then 1. -/
def twoNodeState : AcidList Unit :=
  { heads := 1
    nodes := 2
    headLink := fun _ => { previous := 1, next := 0 }
    nodeLink := fun i =>
      if i = 0 then { previous := 2 ^ 31, next := 1 }
      else { previous := 0, next := 2 ^ 31 }
    payload := fun _ => () }

/-- Iteration of a word-level successor function. -/
def fIter (f : Nat → Nat) (w : Nat) : Nat → Nat
  | 0 => w
  | k + 1 => f (fIter f w k)

/-- `y` lies on the forward orbit of `x` under `f`. -/
def SameOrb (f : Nat → Nat) (x y : Nat) : Prop :=
  ∃ k, fIter f x k = y

/-- The canonical encoded words of the valid slots of a state. -/
def AcidList.ValidW {T : Type} (s : AcidList T) (w : Nat) : Prop :=
  w < s.nodes ∨ ∃ h, h < s.heads ∧ w = 2 ^ 31 + h

/-! ### Claim theorems -/

/-- C10: encode and decode are mutually inverse in both directions: for
every `x < 2^31`, `decode (encode (Node x)) = Node x` and
`decode (encode (Head x)) = Head x`, and for every 32-bit word `w`,
`encode (decode w) = w`, so the encoding is a bijection between `u32`
words and link indices with a 31-bit payload. -/
theorem encode_decode_bijection :
    (∀ x : Nat, x < 2 ^ 31 →
      LinkIndex.from_node (LinkIndex.to_node (.Node x)) = .Node x ∧
      LinkIndex.from_node (LinkIndex.to_node (.Head x)) = .Head x) ∧
    (∀ w : Nat, w < 2 ^ 32 →
      LinkIndex.to_node (LinkIndex.from_node w) = w) := by
  constructor
  · intro x hx
    constructor
    · rw [to_node_node, from_node_node hx]
    · rw [to_node_head hx, from_node_head hx]
  · intro w hw
    exact to_node_from_node hw

/-- Witness for C10 at `x = 5` and `w = 2^31 + 7`. -/
theorem encode_decode_bijection_witness :
    (LinkIndex.from_node (LinkIndex.to_node (.Node 5)) = .Node 5 ∧
      LinkIndex.from_node (LinkIndex.to_node (.Head 5)) = .Head 5) ∧
    LinkIndex.to_node (LinkIndex.from_node (2 ^ 31 + 7)) = 2 ^ 31 + 7 :=
  ⟨encode_decode_bijection.1 5 (by decide),
    encode_decode_bijection.2 (2 ^ 31 + 7) (by decide)⟩

/-- C9: after `set(i, v)`, `get(i)` returns `v` bitwise, and `set` leaves
every link field and every other node's payload unchanged. -/
theorem set_then_get {T : Type} (s : AcidList T) (i : Nat) (v : T)
    (hi : i < s.nodes) :
    ∃ s', s.set? i v = some s' ∧
      s'.get? i = some v ∧
      (∀ j, j ≠ i → s'.payload j = s.payload j) ∧
      (∀ j, s'.nodeLink j = s.nodeLink j) ∧
      (∀ j, s'.headLink j = s.headLink j) ∧
      s'.heads = s.heads ∧ s'.nodes = s.nodes := by
  refine ⟨{ s with payload := Function.update s.payload i v }, ?_, ?_, ?_,
    fun j => rfl, fun j => rfl, rfl, rfl⟩
  · rw [AcidList.set?, if_pos hi]
  · rw [AcidList.get?]
    simp only [if_pos hi, Function.update_same]
  · intro j hj
    exact Function.update_noteq hj v s.payload

/-- Witness for C9 on a concrete two-node state. -/
theorem set_then_get_witness :
    ∃ s', (AcidList.set? twoNodeState 1 ()) = some s' ∧
      s'.get? 1 = some () ∧
      (∀ j, j ≠ 1 → s'.payload j = twoNodeState.payload j) ∧
      (∀ j, s'.nodeLink j = twoNodeState.nodeLink j) ∧
      (∀ j, s'.headLink j = twoNodeState.headLink j) ∧
      s'.heads = twoNodeState.heads ∧ s'.nodes = twoNodeState.nodes :=
  set_then_get twoNodeState 1 () (by decide)

/-- C6: when the moved node already sits in the requested relative
position (`from.next` encodes `to_next` for `move_before`,
`from.previous` encodes `to_previous` for `move_after`), the operation
returns the state entirely unchanged: no head, node link, or payload is
written. -/
theorem no_op_move_writes_nothing {T : Type} (s : AcidList T)
    (from_idx : Nat) (anchor : LinkIndex)
    (hne : LinkIndex.Node from_idx ≠ anchor) (hf : from_idx < s.nodes) :
    ((s.nodeLink from_idx).next = anchor.to_node →
      s.move_before from_idx anchor = some s) ∧
    ((s.nodeLink from_idx).previous = anchor.to_node →
      s.move_after from_idx anchor = some s) := by
  have hv : s.ValidIdx (.Node from_idx) := hf
  constructor <;> intro h
  · have h' : (s.slotLink (.Node from_idx)).next = anchor.to_node := h
    rw [AcidList.move_before, if_neg hne, AcidList.link?, if_pos hv]
    show (if (s.slotLink (.Node from_idx)).next = anchor.to_node then _ else _)
      = some s
    rw [if_pos h']
    rfl
  · have h' : (s.slotLink (.Node from_idx)).previous = anchor.to_node := h
    rw [AcidList.move_after, if_neg hne, AcidList.link?, if_pos hv]
    show (if (s.slotLink (.Node from_idx)).previous = anchor.to_node then _
          else _) = some s
    rw [if_pos h']
    rfl

/-- Witness for C6: moving node 0 before node 1 (where it already is) and
node 1 after node 0 are both no-ops on the two-node list. -/
theorem no_op_move_writes_nothing_witness :
    (((twoNodeState.nodeLink 0).next = (LinkIndex.Node 1).to_node →
      twoNodeState.move_before 0 (.Node 1) = some twoNodeState) ∧
    ((twoNodeState.nodeLink 0).previous = (LinkIndex.Node 1).to_node →
      twoNodeState.move_after 0 (.Node 1) = some twoNodeState)) ∧
    twoNodeState.move_before 0 (.Node 1) = some twoNodeState :=
  have h := no_op_move_writes_nothing twoNodeState 0 (.Node 1)
    (by decide) (by decide)
  ⟨h, h.1 (by decide)⟩

/-- C2 counterexample: replaying accesses `5, 3, 5` with
`move_before(x, Head(0))` leaves list 0's `next`-cycle visiting
`Node(3)` then `Node(5)` — not `Node(5)` then `Node(3)` as claimed. -/
theorem lru_head_anchor_counterexample :
    (lruRun.map fun s => (s.nextIter (LinkIndex.to_node (.Head 0)) 1,
        s.nextIter (LinkIndex.to_node (.Head 0)) 2)) = some (3, 5) ∧
    ¬ (lruRun.map fun s => (s.nextIter (LinkIndex.to_node (.Head 0)) 1,
        s.nextIter (LinkIndex.to_node (.Head 0)) 2)) = some (5, 3) := by
  constructor
  · decide
  · decide

/-- C2 (amended): after replaying `5, 3, 5` via `move_before(x, Head(0))`
list 0's `next`-cycle from `Head(0)` visits `Node(3)` then `Node(5)`
(most recently accessed last, because `move_before(x, Head(0))` inserts
at the back of the cycle), and list 1 holds `0,1,2,4,6,7,8,9` in their
original relative order. -/
theorem lru_head_anchor_final_state :
    (lruRun.map fun s =>
        (List.range 4).map (s.nextIter (LinkIndex.to_node (.Head 0))))
      = some [2 ^ 31, 3, 5, 2 ^ 31] ∧
    (lruRun.map fun s =>
        (List.range 10).map (s.nextIter (LinkIndex.to_node (.Head 1))))
      = some [2 ^ 31 + 1, 0, 1, 2, 4, 6, 7, 8, 9, 2 ^ 31 + 1] := by
  constructor
  · decide
  · decide

/-- C5: `open` fails `NotInitialized` whenever the file is shorter than
the header (that check precedes every header read); past that gate it
fails `WrongArchitecture` exactly for a bad magic word or an
unaddressable length, `WrongDataType` exactly for a payload-size
mismatch, `NotInitialized` exactly for `heads < 1` or a length different
from the header-implied file size, and otherwise returns the handle. -/
theorem open_validation_characterization (szT alignT : Nat) (f : FileImage) :
    (f.len < headerSize → openCheck szT alignT f = .error .NotInitialized) ∧
    (headerSize ≤ f.len →
      (openCheck szT alignT f = .error .WrongArchitecture ↔
        f.magic ≠ HEADER_MAGIC ∨ f.len > usizeMax)) ∧
    (headerSize ≤ f.len → f.len ≤ usizeMax → f.magic = HEADER_MAGIC →
      (openCheck szT alignT f = .error .WrongDataType ↔ f.data_size ≠ szT)) ∧
    (headerSize ≤ f.len → f.len ≤ usizeMax → f.magic = HEADER_MAGIC →
      f.data_size = szT →
      (openCheck szT alignT f = .error .NotInitialized ↔
        f.heads < 1 ∨ f.len ≠ file_size szT alignT f.heads f.nodes)) ∧
    (headerSize ≤ f.len → f.len ≤ usizeMax → f.magic = HEADER_MAGIC →
      f.data_size = szT → 1 ≤ f.heads →
      f.len = file_size szT alignT f.heads f.nodes →
      openCheck szT alignT f = .ok (f.heads, f.nodes)) := by
  unfold openCheck headerSize usizeMax
  split_ifs with h1 h2 h3 h4 h5
  · refine ⟨fun h => absurd h (by omega),
      fun _ => ?_, fun _ hle => absurd h1 (by omega),
      fun _ hle => absurd h1 (by omega), fun _ hle => absurd h1 (by omega)⟩
    simp only [true_iff]
    exact Or.inr h1
  · refine ⟨fun _ => rfl, fun hge => absurd h2 (by omega),
      fun hge => absurd h2 (by omega),
      fun hge => absurd h2 (by omega),
      fun hge => absurd h2 (by omega)⟩
  · refine ⟨fun h => absurd h (by omega), fun _ => ?_,
      fun _ _ hm => absurd hm h3, fun _ _ hm => absurd hm h3,
      fun _ _ hm => absurd hm h3⟩
    simp only [true_iff]
    exact Or.inl h3
  · refine ⟨fun h => absurd h (by omega), fun _ => ?_, fun _ _ _ => ?_,
      fun _ _ _ hd => absurd hd h4, fun _ _ _ hd => absurd hd h4⟩
    · constructor
      · intro h
        exact absurd h (by simp)
      · intro h
        rcases h with h | h
        · exact absurd h h3
        · exact absurd h1 (by omega)
    · simp only [iff_true_intro h4, iff_true]
  · refine ⟨fun h => absurd h (by omega), fun _ => ?_, fun _ _ _ => ?_,
      fun _ hle _ hd => ?_, fun _ hle _ _ hh hlen => ?_⟩
    · constructor
      · intro h
        exact absurd h (by simp)
      · intro h
        rcases h with h | h
        · exact absurd h h3
        · exact absurd h1 (by omega)
    · constructor
      · intro h
        exact absurd h (by simp)
      · intro h
        exact absurd h h4
    · simp only [true_iff]
      rcases h5 with h | h | h
      · exact Or.inl h
      · refine Or.inr ?_
        omega
      · exact Or.inr h
    · exact absurd h5 (by push_neg; exact ⟨hh, by omega, by omega⟩)
  · refine ⟨fun h => absurd h (by omega), fun _ => ?_, fun _ _ _ => ?_,
      fun _ _ _ _ => ?_, fun _ _ _ _ _ _ => rfl⟩
    · constructor
      · intro h
        exact absurd h (by simp)
      · intro h
        rcases h with h | h
        · exact absurd h h3
        · exact absurd h1 (by omega)
    · constructor
      · intro h
        exact absurd h (by simp)
      · intro h
        exact absurd h h4
    · constructor
      · intro h
        exact absurd h (by simp)
      · intro h
        push_neg at h5
        rcases h with h | h
        · omega
        · exact absurd h5.2.2 (by simpa using h)

/-- Witness for C5: a well-formed 24-byte image with one head and no
nodes is accepted, and a 8-byte file is rejected as `NotInitialized`. -/
theorem open_validation_characterization_witness :
    openCheck 4 4 ⟨24, HEADER_MAGIC, 4, 1, 0⟩ = .ok (1, 0) ∧
    openCheck 4 4 ⟨8, 0, 0, 0, 0⟩ = .error .NotInitialized :=
  ⟨(open_validation_characterization 4 4 _).2.2.2.2 (by decide) (by decide)
      (by decide) (by decide) (by decide) (by decide),
    (open_validation_characterization 4 4 _).1 (by decide)⟩

/-- Helper: a successful `openCheck` always reports the header's counts. -/
lemma openCheck_ok_shape {szT alignT : Nat} {f : FileImage} {v : Nat × Nat}
    (h : openCheck szT alignT f = .ok v) : v = (f.heads, f.nodes) := by
  unfold openCheck at h
  split_ifs at h
  all_goals injection h with h
  all_goals exact h.symm

/-- C8: a file image produced by a successful `create` passes `open`'s
validation and presents the same `{heads, nodes}` counts. -/
theorem create_then_open {T : Type} (szT alignT heads nodes : Nat) (t0 : T)
    (h : (AcidList.create szT alignT heads nodes t0).isSome = true) :
    openCheck szT alignT (createImage szT alignT heads nodes)
      = .ok (heads, nodes) := by
  unfold AcidList.create at h
  rcases hoc : openCheck szT alignT (createImage szT alignT heads nodes)
    with e | v
  · simp [hoc] at h
  · have hv := openCheck_ok_shape hoc
    rw [hv]
    rfl

/-- Witness for C8 on a concrete create of one head and zero nodes. -/
theorem create_then_open_witness :
    openCheck 4 4 (createImage 4 4 1 0) = .ok (1, 0) :=
  create_then_open 4 4 1 0 () (by decide)

/-- C3 (code bug): neither validation enforces the `2^31 − 1` cap; a file
image declaring `2^31` heads of the correct length is accepted by
`open`'s checks and yields a handle. -/
theorem open_accepts_heads_over_cap :
    2 ^ 31 - 1 < (2 ^ 31 : Nat) ∧
    openCheck 32 1 ⟨file_size 32 1 (2 ^ 31) 0, HEADER_MAGIC, 32, 2 ^ 31, 0⟩
      = .ok (2 ^ 31, 0) := by
  constructor
  · decide
  · rfl

/-! ### Helper lemmas: slot writes -/

namespace AcidList

variable {T : Type}

lemma updSlot_heads (s : AcidList T) (X : LinkIndex) (l : Link) :
    (s.updSlot X l).heads = s.heads := by
  cases X <;> rfl

lemma updSlot_nodes (s : AcidList T) (X : LinkIndex) (l : Link) :
    (s.updSlot X l).nodes = s.nodes := by
  cases X <;> rfl

lemma updSlot_payload (s : AcidList T) (X : LinkIndex) (l : Link) :
    (s.updSlot X l).payload = s.payload := by
  cases X <;> rfl

lemma slotLink_updSlot (s : AcidList T) (X Y : LinkIndex) (l : Link) :
    (s.updSlot X l).slotLink Y = if Y = X then l else s.slotLink Y := by
  cases X <;> cases Y <;>
    simp only [updSlot, slotLink, Function.update_apply, LinkIndex.Node.injEq,
      LinkIndex.Head.injEq] <;>
    first
      | (split <;> rfl)
      | (rw [if_neg (by intro h; exact LinkIndex.noConfusion h)])

lemma ValidIdx_updSlot (s : AcidList T) (X Y : LinkIndex) (l : Link) :
    (s.updSlot X l).ValidIdx Y ↔ s.ValidIdx Y := by
  cases X <;> cases Y <;> rfl

lemma writeW?_eq {s : AcidList T} {w : Nat} {X : LinkIndex}
    (hdec : LinkIndex.from_node w = X) (hv : s.ValidIdx X) (l : Link) :
    s.writeW? w l = some (s.updSlot X l) := by
  rw [writeW?]
  simp only [hdec]
  rw [if_pos hv]

lemma setPrevW?_eq {s : AcidList T} {w : Nat} {X : LinkIndex}
    (hdec : LinkIndex.from_node w = X) (hv : s.ValidIdx X) (p : Nat) :
    s.setPrevW? w p
      = some (s.updSlot X { s.slotLink X with previous := p }) := by
  rw [setPrevW?]
  simp only [hdec]
  rw [link?, if_pos hv]
  exact writeW?_eq hdec hv _

lemma setNextW?_eq {s : AcidList T} {w : Nat} {X : LinkIndex}
    (hdec : LinkIndex.from_node w = X) (hv : s.ValidIdx X) (n : Nat) :
    s.setNextW? w n
      = some (s.updSlot X { s.slotLink X with next := n }) := by
  rw [setNextW?]
  simp only [hdec]
  rw [link?, if_pos hv]
  exact writeW?_eq hdec hv _

/-! ### Helper lemmas: the create initialization -/

lemma slotLink_updSlot_self (s : AcidList T) (X : LinkIndex) (l : Link) :
    (s.updSlot X l).slotLink X = l := by
  rw [slotLink_updSlot, if_pos rfl]

lemma slotLink_updSlot_ne (s : AcidList T) {X Y : LinkIndex} (l : Link)
    (h : Y ≠ X) : (s.updSlot X l).slotLink Y = s.slotLink Y := by
  rw [slotLink_updSlot, if_neg h]

lemma head_ne_node (a b : Nat) : LinkIndex.Head a ≠ LinkIndex.Node b := by
  intro h
  exact LinkIndex.noConfusion h

lemma node_ne_head (a b : Nat) : LinkIndex.Node a ≠ LinkIndex.Head b := by
  intro h
  exact LinkIndex.noConfusion h

/-- Evaluation of the head-initialization loop when all `n` written head
indices are in range of both the head array and the encodable space. -/
lemma initHeadsAux_ok (s : AcidList T) (n : Nat) (hn31 : n ≤ 2 ^ 31)
    (hnh : n ≤ s.heads) :
    ∃ s', initHeadsAux s n = some s' ∧
      s'.heads = s.heads ∧ s'.nodes = s.nodes ∧ s'.payload = s.payload ∧
      (∀ j, s'.slotLink (.Head j) =
        if j < n then { previous := 2 ^ 31 + j, next := 2 ^ 31 + j }
        else s.slotLink (.Head j)) ∧
      (∀ j, s'.slotLink (.Node j) = s.slotLink (.Node j)) := by
  induction n with
  | zero =>
    exact ⟨s, rfl, rfl, rfl, rfl, fun j => by simp, fun j => rfl⟩
  | succ n ih =>
    obtain ⟨s', hs', hh, hn, hp, hhl, hnl⟩ :=
      ih (by omega) (le_trans (Nat.le_succ n) hnh)
    have hn31' : n < 2 ^ 31 := by omega
    have hw : LinkIndex.to_node (.Head n) = 2 ^ 31 + n := to_node_head hn31'
    have hdec : LinkIndex.from_node (LinkIndex.to_node (.Head n)) = .Head n := by
      rw [hw]
      exact from_node_head hn31'
    have hv : s'.ValidIdx (.Head n) := by
      show n < s'.heads
      omega
    refine ⟨s'.updSlot (.Head n)
        { previous := LinkIndex.to_node (.Head n)
          next := LinkIndex.to_node (.Head n) }, ?_, ?_, ?_, ?_, ?_, ?_⟩
    · rw [initHeadsAux, hs']
      show s'.writeW? (LinkIndex.to_node (.Head n)) _ = _
      rw [writeW?_eq hdec hv]
    · rw [updSlot_heads, hh]
    · rw [updSlot_nodes, hn]
    · rw [updSlot_payload, hp]
    · intro j
      rcases Nat.lt_trichotomy j n with hj | hj | hj
      · rw [slotLink_updSlot_ne _ _ (by simp [Nat.ne_of_lt hj]), hhl j,
          if_pos hj, if_pos (by omega)]
      · subst hj
        rw [slotLink_updSlot_self, if_pos (by omega), hw]
      · rw [slotLink_updSlot_ne _ _ (by simp [Nat.ne_of_gt hj]), hhl j,
          if_neg (by omega), if_neg (by omega)]
    · intro j
      rw [slotLink_updSlot_ne _ _ (node_ne_head j n), hnl j]

/-- Evaluation of the node-threading loop when all `n` written node
indices are in range. -/
lemma initNodesAux_ok (s : AcidList T) (n : Nat) (hn31 : n ≤ 2 ^ 31)
    (hnn : n ≤ s.nodes) :
    ∃ s', initNodesAux s n = some s' ∧
      s'.heads = s.heads ∧ s'.nodes = s.nodes ∧ s'.payload = s.payload ∧
      (∀ j, s'.slotLink (.Head j) = s.slotLink (.Head j)) ∧
      (∀ j, s'.slotLink (.Node j) =
        if j < n then { previous := (j + (2 ^ 32 - 1)) % 2 ^ 32
                        next := (j + 1) % 2 ^ 32 }
        else s.slotLink (.Node j)) := by
  induction n with
  | zero =>
    exact ⟨s, rfl, rfl, rfl, rfl, fun j => rfl, fun j => by simp⟩
  | succ n ih =>
    obtain ⟨s', hs', hh, hn, hp, hhl, hnl⟩ :=
      ih (by omega) (le_trans (Nat.le_succ n) hnn)
    have hn31' : n < 2 ^ 31 := by omega
    have hdec : LinkIndex.from_node n = .Node n := from_node_node hn31'
    have hv : s'.ValidIdx (.Node n) := by
      show n < s'.nodes
      omega
    refine ⟨s'.updSlot (.Node n)
        { previous := (n + (2 ^ 32 - 1)) % 2 ^ 32
          next := (n + 1) % 2 ^ 32 }, ?_, ?_, ?_, ?_, ?_, ?_⟩
    · rw [initNodesAux, hs']
      show s'.writeW? n _ = _
      rw [writeW?_eq hdec hv]
    · rw [updSlot_heads, hh]
    · rw [updSlot_nodes, hn]
    · rw [updSlot_payload, hp]
    · intro j
      rw [slotLink_updSlot_ne _ _ (head_ne_node j n), hhl j]
    · intro j
      rcases Nat.lt_trichotomy j n with hj | hj | hj
      · rw [slotLink_updSlot_ne _ _ (by simp [Nat.ne_of_lt hj]), hnl j,
          if_pos hj, if_pos (by omega)]
      · subst hj
        rw [slotLink_updSlot_self, if_pos (by omega)]
      · rw [slotLink_updSlot_ne _ _ (by simp [Nat.ne_of_gt hj]), hnl j,
          if_neg (by omega), if_neg (by omega)]

/-- Full evaluation of `create`'s initialization for counts within the
encodable `2^31` space. -/
lemma createInit_ok (heads nodes : Nat) (t0 : T) (hh : 1 ≤ heads)
    (hh31 : heads ≤ 2 ^ 31) (hn31 : nodes ≤ 2 ^ 31) :
    ∃ s : AcidList T, createInit heads nodes t0 = some s ∧
      s.heads = heads ∧ s.nodes = nodes ∧
      (∀ h, h < heads → h ≠ 0 ∨ nodes = 0 →
        s.slotLink (.Head h) = { previous := 2 ^ 31 + h, next := 2 ^ 31 + h }) ∧
      (0 < nodes →
        s.slotLink (.Head 0) = { previous := nodes - 1, next := 0 } ∧
        (s.slotLink (.Node 0)).previous = 2 ^ 31 ∧
        (s.slotLink (.Node (nodes - 1))).next = 2 ^ 31 ∧
        (∀ i, i < nodes → 0 < i → (s.slotLink (.Node i)).previous = i - 1) ∧
        (∀ i, i + 1 < nodes → (s.slotLink (.Node i)).next = i + 1)) := by
  obtain ⟨s1, e1, h1h, h1n, h1p, h1hl, h1nl⟩ :=
    initHeadsAux_ok (zeroState heads nodes t0) heads hh31 (le_refl heads)
  have h1h' : s1.heads = heads := h1h
  have h1n' : s1.nodes = nodes := h1n
  rcases Nat.eq_zero_or_pos nodes with hz | hpos
  · refine ⟨s1, ?_, h1h', h1n', ?_, by omega⟩
    · rw [createInit, e1]
      show (if nodes > 0 then _ else pure s1) = some s1
      rw [if_neg (by omega)]
      rfl
    · intro h hlt _
      rw [h1hl h, if_pos hlt]
  · obtain ⟨s2, e2, h2h, h2n, h2p, h2hl, h2nl⟩ :=
      initNodesAux_ok s1 nodes hn31 (by omega)
    have hw : LinkIndex.to_node (.Head 0) = 2 ^ 31 + 0 :=
      to_node_head (by positivity)
    have hd0 : LinkIndex.from_node 0 = .Node 0 := from_node_node (by positivity)
    have hv0 : s2.ValidIdx (.Node 0) := by
      show (0 : Nat) < s2.nodes
      omega
    have e3 := setPrevW?_eq hd0 hv0 (LinkIndex.to_node (.Head 0))
    have hdl : LinkIndex.from_node (nodes - 1) = .Node (nodes - 1) :=
      from_node_node (by omega)
    have hvl : ∀ u : AcidList T, u.nodes = nodes → u.ValidIdx (.Node (nodes - 1)) := by
      intro u hu
      show nodes - 1 < u.nodes
      omega
    have hvh : ∀ u : AcidList T, u.heads = heads → u.ValidIdx (.Head 0) := by
      intro u hu
      show (0 : Nat) < u.heads
      omega
    have e4 := setNextW?_eq hdl
      (hvl (s2.updSlot (.Node 0)
        { s2.slotLink (.Node 0) with previous := LinkIndex.to_node (.Head 0) })
        (by rw [updSlot_nodes]; omega))
      (LinkIndex.to_node (.Head 0))
    have hdh : LinkIndex.from_node (LinkIndex.to_node (.Head 0)) = .Head 0 := by
      rw [hw]
      exact from_node_head (by positivity)
    have e5 := writeW?_eq (s :=
      ((s2.updSlot (.Node 0)
        { s2.slotLink (.Node 0) with previous := LinkIndex.to_node (.Head 0) }).updSlot
          (.Node (nodes - 1))
          { (s2.updSlot (.Node 0)
              { s2.slotLink (.Node 0) with
                  previous := LinkIndex.to_node (.Head 0) }).slotLink
                (.Node (nodes - 1)) with
              next := LinkIndex.to_node (.Head 0) }))
      hdh
      (hvh _ (by rw [updSlot_heads, updSlot_heads]; omega))
      { previous := nodes - 1, next := (0 : Nat) }
    refine ⟨((s2.updSlot (.Node 0)
        { s2.slotLink (.Node 0) with
            previous := LinkIndex.to_node (.Head 0) }).updSlot
          (.Node (nodes - 1))
          { (s2.updSlot (.Node 0)
              { s2.slotLink (.Node 0) with
                  previous := LinkIndex.to_node (.Head 0) }).slotLink
                (.Node (nodes - 1)) with
              next := LinkIndex.to_node (.Head 0) }).updSlot (.Head 0)
        { previous := nodes - 1, next := (0 : Nat) },
      ?_, ?_, ?_, ?_, fun _ => ⟨?_, ?_, ?_, ?_, ?_⟩⟩
    · rw [createInit, e1]
      show (if nodes > 0 then _ else pure s1) = _
      rw [if_pos hpos, e2]
      show (s2.setPrevW? 0 (LinkIndex.to_node (.Head 0))).bind _ = _
      rw [e3]
      show Option.bind (some _) _ = _
      rw [Option.some_bind]
      show (Option.bind (AcidList.setNextW? _ (nodes - 1)
        (LinkIndex.to_node (.Head 0))) _) = _
      rw [e4, Option.some_bind]
      exact e5
    · rw [updSlot_heads, updSlot_heads, updSlot_heads, h2h, h1h']
    · rw [updSlot_nodes, updSlot_nodes, updSlot_nodes, h2n, h1n']
    · intro h hlt hne
      have hne0 : h ≠ 0 := by omega
      rw [slotLink_updSlot_ne _ _ (by simp [hne0]),
        slotLink_updSlot_ne _ _ (head_ne_node h (nodes - 1)),
        slotLink_updSlot_ne _ _ (head_ne_node h 0), h2hl, h1hl, if_pos hlt]
    · rw [slotLink_updSlot_self]
    · rcases Nat.eq_zero_or_pos (nodes - 1) with hl0 | hl0
      · rw [slotLink_updSlot_ne _ _ (node_ne_head 0 0), hl0,
          slotLink_updSlot_self]
        show ((s2.updSlot (.Node 0)
          { s2.slotLink (.Node 0) with
              previous := LinkIndex.to_node (.Head 0) }).slotLink
            (.Node 0)).previous = 2 ^ 31
        rw [slotLink_updSlot_self]
        show LinkIndex.to_node (.Head 0) = 2 ^ 31
        rw [hw]
        omega
      · rw [slotLink_updSlot_ne _ _ (node_ne_head 0 0),
          slotLink_updSlot_ne _ _
            (by intro hc; simp at hc; omega),
          slotLink_updSlot_self]
        show LinkIndex.to_node (.Head 0) = 2 ^ 31
        rw [hw]
        omega
    · rw [slotLink_updSlot_ne _ _ (node_ne_head (nodes - 1) 0),
        slotLink_updSlot_self]
      show LinkIndex.to_node (.Head 0) = 2 ^ 31
      rw [hw]
      omega
    · intro i hilt hipos
      have hprev : (s2.slotLink (.Node i)).previous = i - 1 := by
        rw [h2nl, if_pos hilt]
        show (i + (2 ^ 32 - 1)) % 2 ^ 32 = i - 1
        have hi32 : i < 2 ^ 32 := by
          have : (2 : Nat) ^ 31 < 2 ^ 32 := by norm_num
          omega
        have hsplit : i + (2 ^ 32 - 1) = (i - 1) + 1 * 2 ^ 32 := by omega
        rw [hsplit, Nat.add_mul_mod_self_right, Nat.mod_eq_of_lt (by omega)]
      rw [slotLink_updSlot_ne _ _ (node_ne_head i 0)]
      rcases Nat.decEq i (nodes - 1) with hi | hi
      · rw [slotLink_updSlot_ne _ _ (by intro hc; simp at hc; omega),
          slotLink_updSlot_ne _ _ (by intro hc; simp at hc; omega)]
        exact hprev
      · subst hi
        rw [slotLink_updSlot_self]
        show ((s2.updSlot (.Node 0)
          { s2.slotLink (.Node 0) with
              previous := LinkIndex.to_node (.Head 0) }).slotLink
            (.Node (nodes - 1))).previous = nodes - 1 - 1
        rw [slotLink_updSlot_ne _ _ (by intro hc; simp at hc; omega)]
        exact hprev
    · intro i hilt
      have hnext : (s2.slotLink (.Node i)).next = i + 1 := by
        rw [h2nl, if_pos (by omega)]
        show (i + 1) % 2 ^ 32 = i + 1
        have : (2 : Nat) ^ 31 < 2 ^ 32 := by norm_num
        exact Nat.mod_eq_of_lt (by omega)
      rw [slotLink_updSlot_ne _ _ (node_ne_head i 0),
        slotLink_updSlot_ne _ _ (by intro hc; simp at hc; omega)]
      rcases Nat.decEq i 0 with hi | hi
      · rw [slotLink_updSlot_ne _ _ (by intro hc; simp at hc; omega)]
        exact hnext
      · subst hi
        rw [slotLink_updSlot_self]
        exact hnext

end AcidList

/-- Helper: a successful `openCheck` implies at least one head. -/
lemma openCheck_ok_heads {szT alignT : Nat} {f : FileImage} {v : Nat × Nat}
    (h : openCheck szT alignT f = .ok v) : 1 ≤ f.heads := by
  unfold openCheck at h
  split_ifs at h with h1 h2 h3 h4 h5
  all_goals first
    | exact Except.noConfusion h
    | (push_neg at h5; omega)

/-- Helper: a successful `create` implies a successful `createInit`. -/
lemma create_isSome_init {T : Type} {szT alignT heads nodes : Nat} {t0 : T}
    (h : (AcidList.create szT alignT heads nodes t0).isSome = true) :
    (AcidList.createInit heads nodes t0 : Option (AcidList T)).isSome
      = true := by
  unfold AcidList.create at h
  rcases hoc : openCheck szT alignT (createImage szT alignT heads nodes)
    with e | v
  · simp [hoc] at h
  · rcases hci : (AcidList.createInit heads nodes t0 : Option (AcidList T))
      with _ | s2
    · simp [hoc, hci] at h
    · rfl

/-- Unfolding one iteration of the head-initialization loop. -/
lemma AcidList.initHeadsAux_succ {T : Type} (s : AcidList T) (n : Nat) :
    s.initHeadsAux (n + 1) = (s.initHeadsAux n).bind
      (fun s' => s'.writeW? (LinkIndex.to_node (.Head n))
        { previous := LinkIndex.to_node (.Head n)
          next := LinkIndex.to_node (.Head n) }) := rfl

/-- C4 (amended): for every header whose counts respect the `2^31` index
space, the state produced by a successful create has every head with an
empty list equal to a self-loop, and when `nodes > 0` all nodes threaded
into list 0 in index order: node 0's previous is `Head(0)`,
node `nodes−1`'s next is `Head(0)`, `Head(0) = {previous: nodes−1,
next: 0}`, and interior nodes link to their numeric neighbors. -/
theorem create_initial_state {T : Type} (szT alignT heads nodes : Nat)
    (t0 : T) (hh31 : heads ≤ 2 ^ 31) (hn31 : nodes ≤ 2 ^ 31)
    (hsucc : (AcidList.create szT alignT heads nodes t0).isSome = true) :
    ∃ s : AcidList T,
      AcidList.create szT alignT heads nodes t0
        = some (createImage szT alignT heads nodes, s) ∧
      s.heads = heads ∧ s.nodes = nodes ∧
      (∀ h, h < heads → h ≠ 0 ∨ nodes = 0 →
        s.slotLink (.Head h) = { previous := LinkIndex.to_node (.Head h)
                                 next := LinkIndex.to_node (.Head h) }) ∧
      (0 < nodes →
        s.slotLink (.Head 0) = { previous := nodes - 1, next := 0 } ∧
        (s.slotLink (.Node 0)).previous = LinkIndex.to_node (.Head 0) ∧
        (s.slotLink (.Node (nodes - 1))).next = LinkIndex.to_node (.Head 0) ∧
        (∀ i, i < nodes → 0 < i → (s.slotLink (.Node i)).previous = i - 1) ∧
        (∀ i, i + 1 < nodes → (s.slotLink (.Node i)).next = i + 1)) := by
  have hoc := create_then_open szT alignT heads nodes t0 hsucc
  have hh1 : 1 ≤ heads := openCheck_ok_heads hoc
  obtain ⟨s, hinit, hsh, hsn, hempty, hthread⟩ :=
    AcidList.createInit_ok heads nodes t0 hh1 hh31 hn31
  refine ⟨s, ?_, hsh, hsn, ?_, ?_⟩
  · simp [AcidList.create, hoc, hinit]
  · intro h hlt hor
    rw [hempty h hlt hor, to_node_head (by omega)]
  · intro hpos
    obtain ⟨c1, c2, c3, c4, c5⟩ := hthread hpos
    exact ⟨c1, by rw [c2, to_node_head (by positivity), Nat.add_zero],
      by rw [c3, to_node_head (by positivity), Nat.add_zero], c4, c5⟩

/-- Witness for C4 (amended) at `heads = 2`, `nodes = 4`. -/
theorem create_initial_state_witness :
    ∃ s : AcidList Unit,
      AcidList.create 4 4 2 4 () = some (createImage 4 4 2 4, s) ∧
      s.heads = 2 ∧ s.nodes = 4 ∧
      (∀ h, h < 2 → h ≠ 0 ∨ 4 = 0 →
        s.slotLink (.Head h) = { previous := LinkIndex.to_node (.Head h)
                                 next := LinkIndex.to_node (.Head h) }) ∧
      (0 < 4 →
        s.slotLink (.Head 0) = { previous := 4 - 1, next := 0 } ∧
        (s.slotLink (.Node 0)).previous = LinkIndex.to_node (.Head 0) ∧
        (s.slotLink (.Node (4 - 1))).next = LinkIndex.to_node (.Head 0) ∧
        (∀ i, i < 4 → 0 < i → (s.slotLink (.Node i)).previous = i - 1) ∧
        (∀ i, i + 1 < 4 → (s.slotLink (.Node i)).next = i + 1)) :=
  create_initial_state 4 4 2 4 () (by decide) (by decide) (by decide)

/-- C4 counterexample: with the cap unenforced, `create` succeeds on a
header with `2^31 + 1` heads, yet head `2^31`'s slot keeps its zeroed
value `{previous: Node(0), next: Node(0)}` instead of the self-loop the
claim requires for an empty list. -/
theorem create_over_cap_counterexample :
    ∃ fs : FileImage × AcidList Unit,
      AcidList.create 32 1 (2 ^ 31 + 1) 0 () = some fs ∧
      fs.2.slotLink (.Head (2 ^ 31)) = { previous := 0, next := 0 } ∧
      ({ previous := 0, next := 0 } : Link)
        ≠ { previous := LinkIndex.to_node (.Head (2 ^ 31))
            next := LinkIndex.to_node (.Head (2 ^ 31)) } := by
  obtain ⟨s1, e1, h1h, h1n, h1p, h1hl, h1nl⟩ :=
    AcidList.initHeadsAux_ok (AcidList.zeroState (2 ^ 31 + 1) 0 ())
      (2 ^ 31) (le_refl _)
      (by show (2 : Nat) ^ 31 ≤ 2 ^ 31 + 1; omega)
  have hw : LinkIndex.to_node (.Head (2 ^ 31)) = 2 ^ 31 := by
    show 2 ^ 31 ||| HEAD_FLAG = 2 ^ 31
    rw [HEAD_FLAG, Nat.or_self]
  have hdec : LinkIndex.from_node (LinkIndex.to_node (.Head (2 ^ 31)))
      = .Head 0 := by
    rw [hw]
    have h0 : (2 : Nat) ^ 31 = 2 ^ 31 + 0 := by omega
    rw [h0]
    exact from_node_head (by positivity)
  have hv : s1.ValidIdx (.Head 0) := by
    show (0 : Nat) < s1.heads
    rw [h1h]
    show (0 : Nat) < 2 ^ 31 + 1
    omega
  have einit : AcidList.createInit (2 ^ 31 + 1) 0 ()
      = some (s1.updSlot (.Head 0)
        { previous := LinkIndex.to_node (.Head (2 ^ 31))
          next := LinkIndex.to_node (.Head (2 ^ 31)) }) := by
    rw [AcidList.createInit, AcidList.initHeadsAux_succ, e1]
    simp only [Option.bind_eq_bind, Option.some_bind]
    rw [AcidList.writeW?_eq hdec hv]
    simp only [Option.some_bind]
    show (if (0 : Nat) > 0 then _ else _) = _
    rw [if_neg (by omega)]
    rfl
  have hoc : openCheck 32 1 (createImage 32 1 (2 ^ 31 + 1) 0)
      = .ok (2 ^ 31 + 1, 0) := by rfl
  refine ⟨(createImage 32 1 (2 ^ 31 + 1) 0, s1.updSlot (.Head 0)
      { previous := LinkIndex.to_node (.Head (2 ^ 31))
        next := LinkIndex.to_node (.Head (2 ^ 31)) }), ?_, ?_, by decide⟩
  · unfold AcidList.create
    show (match openCheck 32 1 (createImage 32 1 (2 ^ 31 + 1) 0) with
        | Except.error _ => (none : Option (FileImage × AcidList Unit))
        | Except.ok _ => (AcidList.createInit (2 ^ 31 + 1) 0 ()).map
            (fun s => (createImage 32 1 (2 ^ 31 + 1) 0, s))) = _
    rw [hoc]
    show (AcidList.createInit (2 ^ 31 + 1) 0 ()).map
        (fun s => (createImage 32 1 (2 ^ 31 + 1) 0, s)) = _
    rw [einit]
    rfl
  · rw [AcidList.slotLink_updSlot_ne _ _ (by intro hc; simp at hc),
      h1hl, if_neg (by omega)]
    rfl

/-! ### Generic orbit machinery for an invertible successor on a finite
word set -/

lemma fIter_add (f : Nat → Nat) (w a b : Nat) :
    fIter f w (a + b) = fIter f (fIter f w a) b := by
  induction b with
  | zero => rfl
  | succ b ih =>
    show f (fIter f w (a + b)) = f (fIter f (fIter f w a) b)
    rw [ih]

lemma fIter_mem {f : Nat → Nat} {V : Nat → Prop}
    (hmap : ∀ w, V w → V (f w)) {w : Nat} (hw : V w) (k : Nat) :
    V (fIter f w k) := by
  induction k with
  | zero => exact hw
  | succ k ih => exact hmap _ ih

lemma f_injOn {f g : Nat → Nat} {V : Nat → Prop}
    (hinv : ∀ w, V w → g (f w) = w) {x y : Nat} (hx : V x) (hy : V y)
    (hxy : f x = f y) : x = y := by
  have := hinv x hx
  rw [hxy, hinv y hy] at this
  exact this.symm

lemma fIter_injOn {f g : Nat → Nat} {V : Nat → Prop}
    (hmap : ∀ w, V w → V (f w)) (hinv : ∀ w, V w → g (f w) = w)
    {x y : Nat} (hx : V x) (hy : V y) (k : Nat)
    (hxy : fIter f x k = fIter f y k) : x = y := by
  induction k with
  | zero => exact hxy
  | succ k ih =>
    exact ih (f_injOn hinv (fIter_mem hmap hx k) (fIter_mem hmap hy k) hxy)

lemma fIter_period {f g : Nat → Nat} {V : Nat → Prop} {B : Nat}
    (hmap : ∀ w, V w → V (f w)) (hinv : ∀ w, V w → g (f w) = w)
    (hbnd : ∀ w, V w → w < B) {w : Nat} (hw : V w) :
    ∃ p, 0 < p ∧ fIter f w p = w := by
  have hmaps : ∀ j ∈ Finset.range (B + 1), fIter f w j ∈ Finset.range B := by
    intro j _
    exact Finset.mem_range.mpr (hbnd _ (fIter_mem hmap hw j))
  have hcard : (Finset.range B).card < (Finset.range (B + 1)).card := by
    simp
  obtain ⟨x, _, y, _, hne, heq⟩ :=
    Finset.exists_ne_map_eq_of_card_lt_of_maps_to hcard hmaps
  have key : ∀ a b : Nat, a < b → fIter f w a = fIter f w b →
      ∃ p, 0 < p ∧ fIter f w p = w := by
    intro a b hab he
    refine ⟨b - a, by omega, ?_⟩
    have h2 : fIter f w b = fIter f (fIter f w (b - a)) a := by
      rw [← fIter_add]
      congr 1
      omega
    have h3 := he.trans h2
    exact (fIter_injOn hmap hinv hw (fIter_mem hmap hw (b - a)) a h3).symm
  rcases Nat.lt_or_ge x y with hlt | hge
  · exact key x y hlt heq
  · exact key y x (by omega) heq.symm

lemma fIter_period_mul {f : Nat → Nat} {w p : Nat}
    (hp : fIter f w p = w) (m : Nat) : fIter f w (m * p) = w := by
  induction m with
  | zero =>
    rw [Nat.zero_mul]
    rfl
  | succ m ih =>
    rw [Nat.succ_mul, fIter_add, ih, hp]

lemma sameOrb_refl (f : Nat → Nat) (x : Nat) : SameOrb f x x := ⟨0, rfl⟩

lemma sameOrb_step (f : Nat → Nat) (x : Nat) : SameOrb f x (f x) := ⟨1, rfl⟩

lemma sameOrb_trans {f : Nat → Nat} {x y z : Nat}
    (h1 : SameOrb f x y) (h2 : SameOrb f y z) : SameOrb f x z := by
  obtain ⟨a, ha⟩ := h1
  obtain ⟨b, hb⟩ := h2
  exact ⟨a + b, by rw [fIter_add, ha, hb]⟩

lemma sameOrb_symm {f g : Nat → Nat} {V : Nat → Prop} {B : Nat}
    (hmap : ∀ w, V w → V (f w)) (hinv : ∀ w, V w → g (f w) = w)
    (hbnd : ∀ w, V w → w < B) {x y : Nat} (hx : V x)
    (h : SameOrb f x y) : SameOrb f y x := by
  obtain ⟨k, hk⟩ := h
  obtain ⟨p, hp, hper⟩ := fIter_period hmap hinv hbnd hx
  refine ⟨p * (k + 1) - k, ?_⟩
  rw [← hk, ← fIter_add]
  have : k + (p * (k + 1) - k) = (k + 1) * p := by
    have : p * (k + 1) = (k + 1) * p := Nat.mul_comm p (k + 1)
    have hge : p * (k + 1) ≥ k + 1 := by
      calc p * (k + 1) ≥ 1 * (k + 1) := Nat.mul_le_mul_right _ hp
        _ = k + 1 := Nat.one_mul _
    omega
  rw [this]
  exact fIter_period_mul hper (k + 1)

/-! ### Word-level consequences of the invariants -/

namespace AcidList

variable {T : Type}

lemma nextIter_eq_fIter (s : AcidList T) (w : Nat) (k : Nat) :
    s.nextIter w k = fIter s.nextW w k := by
  induction k with
  | zero => rfl
  | succ k ih =>
    show s.nextW (s.nextIter w k) = s.nextW (fIter s.nextW w k)
    rw [ih]

lemma enc_decode {s : AcidList T} (hWF : s.WF) {idx : LinkIndex}
    (hv : s.ValidIdx idx) :
    LinkIndex.from_node idx.to_node = idx := by
  obtain ⟨hh1, hh31, hn31⟩ := hWF
  cases idx with
  | Node i =>
    exact from_node_node (by exact lt_of_lt_of_le hv hn31)
  | Head h =>
    rw [to_node_head (lt_of_lt_of_le hv hh31)]
    exact from_node_head (lt_of_lt_of_le hv hh31)

lemma validW_enc {s : AcidList T} (hWF : s.WF) {idx : LinkIndex}
    (hv : s.ValidIdx idx) : s.ValidW idx.to_node := by
  obtain ⟨hh1, hh31, hn31⟩ := hWF
  cases idx with
  | Node i => exact Or.inl hv
  | Head h =>
    exact Or.inr ⟨h, hv, to_node_head (lt_of_lt_of_le hv hh31)⟩

lemma validW_spec {s : AcidList T} (hWF : s.WF) {w : Nat} (hw : s.ValidW w) :
    s.ValidIdx (LinkIndex.from_node w) ∧ (LinkIndex.from_node w).to_node = w := by
  obtain ⟨hh1, hh31, hn31⟩ := hWF
  rcases hw with hw | ⟨h, hh, rfl⟩
  · rw [from_node_node (lt_of_lt_of_le hw hn31)]
    exact ⟨hw, rfl⟩
  · rw [from_node_head (lt_of_lt_of_le hh hh31)]
    exact ⟨hh, to_node_head (lt_of_lt_of_le hh hh31)⟩

lemma enc_inj {s : AcidList T} (hWF : s.WF) {i1 i2 : LinkIndex}
    (h1 : s.ValidIdx i1) (h2 : s.ValidIdx i2)
    (he : i1.to_node = i2.to_node) : i1 = i2 := by
  rw [← enc_decode hWF h1, he, enc_decode hWF h2]

lemma nextW_enc {s : AcidList T} (hWF : s.WF) {idx : LinkIndex}
    (hv : s.ValidIdx idx) : s.nextW idx.to_node = (s.slotLink idx).next := by
  rw [nextW, enc_decode hWF hv]

lemma prevW_enc {s : AcidList T} (hWF : s.WF) {idx : LinkIndex}
    (hv : s.ValidIdx idx) :
    s.prevW idx.to_node = (s.slotLink idx).previous := by
  rw [prevW, enc_decode hWF hv]

lemma inv2_word {s : AcidList T} (hWF : s.WF) (hI2 : s.Inv2) {w : Nat}
    (hw : s.ValidW w) :
    s.prevW (s.nextW w) = w ∧ s.nextW (s.prevW w) = w := by
  obtain ⟨hv, he⟩ := validW_spec hWF hw
  have := hI2 (LinkIndex.from_node w) hv
  rw [he] at this
  exact this

lemma stored_valid {s : AcidList T} (hWF : s.WF) (hI1 : s.Inv1)
    (hI2 : s.Inv2) {idx : LinkIndex} (hv : s.ValidIdx idx) :
    s.ValidW (s.slotLink idx).next ∧ s.ValidW (s.slotLink idx).previous := by
  constructor
  · have hYv : s.ValidIdx (LinkIndex.from_node (s.slotLink idx).next) :=
      (hI1 idx hv).1
    have h1 : s.prevW (s.slotLink idx).next = idx.to_node := by
      have := (hI2 idx hv).1
      rw [nextW_enc hWF hv] at this
      exact this
    have hpy : s.prevW (LinkIndex.from_node (s.slotLink idx).next).to_node
        = idx.to_node := by
      rw [prevW_enc hWF hYv]
      exact h1
    have h2 := (hI2 (LinkIndex.from_node (s.slotLink idx).next) hYv).2
    rw [hpy] at h2
    have h3 : (s.slotLink idx).next
        = (LinkIndex.from_node (s.slotLink idx).next).to_node := by
      rw [← h2, nextW_enc hWF hv]
    rw [h3]
    exact validW_enc hWF hYv
  · have hYv : s.ValidIdx (LinkIndex.from_node (s.slotLink idx).previous) :=
      (hI1 idx hv).2
    have h1 : s.nextW (s.slotLink idx).previous = idx.to_node := by
      have := (hI2 idx hv).2
      rw [prevW_enc hWF hv] at this
      exact this
    have hpy : s.nextW (LinkIndex.from_node (s.slotLink idx).previous).to_node
        = idx.to_node := by
      rw [nextW_enc hWF hYv]
      exact h1
    have h2 := (hI2 (LinkIndex.from_node (s.slotLink idx).previous) hYv).1
    rw [hpy] at h2
    have h3 : (s.slotLink idx).previous
        = (LinkIndex.from_node (s.slotLink idx).previous).to_node := by
      rw [← h2, prevW_enc hWF hv]
    rw [h3]
    exact validW_enc hWF hYv

lemma validW_maps_next {s : AcidList T} (hWF : s.WF) (hI1 : s.Inv1)
    (hI2 : s.Inv2) : ∀ w, s.ValidW w → s.ValidW (s.nextW w) := by
  intro w hw
  obtain ⟨hv, he⟩ := validW_spec hWF hw
  rw [nextW]
  exact (stored_valid hWF hI1 hI2 hv).1

lemma validW_maps_prev {s : AcidList T} (hWF : s.WF) (hI1 : s.Inv1)
    (hI2 : s.Inv2) : ∀ w, s.ValidW w → s.ValidW (s.prevW w) := by
  intro w hw
  obtain ⟨hv, he⟩ := validW_spec hWF hw
  rw [prevW]
  exact (stored_valid hWF hI1 hI2 hv).2

lemma validW_bnd {s : AcidList T} (hWF : s.WF) :
    ∀ w, s.ValidW w → w < 2 ^ 31 + s.heads := by
  obtain ⟨hh1, hh31, hn31⟩ := hWF
  intro w hw
  rcases hw with hw | ⟨h, hh, rfl⟩
  · omega
  · omega

lemma node_not_fixed {s : AcidList T} (hWF : s.WF) (hI1 : s.Inv1)
    (hI2 : s.Inv2) (hI3 : s.Inv3) {F : Nat} (hF : F < s.nodes) :
    s.nextW F ≠ F := by
  intro hfix
  obtain ⟨h, ⟨hh, ⟨k, hk⟩⟩, _⟩ := hI3 F hF
  rw [nextIter_eq_fIter] at hk
  have hH : s.ValidW (LinkIndex.to_node (.Head h)) :=
    validW_enc hWF (by exact hh)
  have key : ∀ k, fIter s.nextW (LinkIndex.to_node (.Head h)) k = F → False := by
    intro k
    induction k with
    | zero =>
      intro h0
      have h0' : LinkIndex.to_node (.Head h) = F := h0
      have hge := to_node_head_ge h
      have : F < 2 ^ 31 := lt_of_lt_of_le hF hWF.2.2
      omega
    | succ k ih =>
      intro hk1
      have hmem : s.ValidW (fIter s.nextW (LinkIndex.to_node (.Head h)) k) :=
        fIter_mem (validW_maps_next hWF hI1 hI2) hH k
      have hFw : s.ValidW F := Or.inl hF
      have : fIter s.nextW (LinkIndex.to_node (.Head h)) k = F := by
        apply f_injOn (g := s.prevW) (fun w hw => (inv2_word hWF hI2 hw).1)
          hmem hFw
        show s.nextW _ = s.nextW F
        rw [hfix]
        exact hk1
      exact ih this
  exact key k hk

lemma next_after_setPrev (s : AcidList T) (X : LinkIndex) (p : Nat)
    (Y : LinkIndex) :
    ((s.updSlot X { s.slotLink X with previous := p }).slotLink Y).next
      = (s.slotLink Y).next := by
  by_cases hYX : Y = X
  · subst hYX
    rw [slotLink_updSlot_self]
  · rw [slotLink_updSlot_ne _ _ hYX]

lemma prev_after_setNext (s : AcidList T) (X : LinkIndex) (n : Nat)
    (Y : LinkIndex) :
    ((s.updSlot X { s.slotLink X with next := n }).slotLink Y).previous
      = (s.slotLink Y).previous := by
  by_cases hYX : Y = X
  · subst hYX
    rw [slotLink_updSlot_self]
  · rw [slotLink_updSlot_ne _ _ hYX]

/-- Exact effect of the five writes of `move_to` on every slot: within
each field, the last write to a slot wins, and a read-modify-write
preserves the other field. -/
lemma move_to_char (s : AcidList T) (F P N TP TN : Nat)
    {XF XP XN XTN XTP : LinkIndex}
    (dF : LinkIndex.from_node F = XF) (vF : s.ValidIdx XF)
    (dP : LinkIndex.from_node P = XP) (vP : s.ValidIdx XP)
    (dN : LinkIndex.from_node N = XN) (vN : s.ValidIdx XN)
    (dTN : LinkIndex.from_node TN = XTN) (vTN : s.ValidIdx XTN)
    (dTP : LinkIndex.from_node TP = XTP) (vTP : s.ValidIdx XTP) :
    ∃ s', s.move_to? F { previous := P, next := N }
        { previous := TP, next := TN } = some s' ∧
      s'.heads = s.heads ∧ s'.nodes = s.nodes ∧ s'.payload = s.payload ∧
      (∀ Y, (s'.slotLink Y).next =
        if Y = XTP then F else if Y = XF then TN else if Y = XP then N
        else (s.slotLink Y).next) ∧
      (∀ Y, (s'.slotLink Y).previous =
        if Y = XTN then F else if Y = XF then TP else if Y = XN then P
        else (s.slotLink Y).previous) := by
  have e1 := setPrevW?_eq dN vN P
  have v2 : (s.updSlot XN { s.slotLink XN with previous := P }).ValidIdx XP :=
    (ValidIdx_updSlot _ _ _ _).mpr vP
  have e2 := setNextW?_eq dP v2 N
  have v3 : ((s.updSlot XN { s.slotLink XN with previous := P }).updSlot XP
      { (s.updSlot XN { s.slotLink XN with previous := P }).slotLink XP with
          next := N }).ValidIdx XF :=
    (ValidIdx_updSlot _ _ _ _).mpr ((ValidIdx_updSlot _ _ _ _).mpr vF)
  have e3 := writeW?_eq dF v3 { previous := TP, next := TN }
  have v4 : (((s.updSlot XN { s.slotLink XN with previous := P }).updSlot XP
      { (s.updSlot XN { s.slotLink XN with previous := P }).slotLink XP with
          next := N }).updSlot XF
      { previous := TP, next := TN }).ValidIdx XTN :=
    (ValidIdx_updSlot _ _ _ _).mpr ((ValidIdx_updSlot _ _ _ _).mpr
      ((ValidIdx_updSlot _ _ _ _).mpr vTN))
  have e4 := setPrevW?_eq dTN v4 F
  have v5 : ((((s.updSlot XN { s.slotLink XN with previous := P }).updSlot XP
      { (s.updSlot XN { s.slotLink XN with previous := P }).slotLink XP with
          next := N }).updSlot XF
      { previous := TP, next := TN }).updSlot XTN
      { (((s.updSlot XN { s.slotLink XN with previous := P }).updSlot XP
          { (s.updSlot XN
              { s.slotLink XN with previous := P }).slotLink XP with
              next := N }).updSlot XF
          { previous := TP, next := TN }).slotLink XTN with
          previous := F }).ValidIdx XTP :=
    (ValidIdx_updSlot _ _ _ _).mpr ((ValidIdx_updSlot _ _ _ _).mpr
      ((ValidIdx_updSlot _ _ _ _).mpr ((ValidIdx_updSlot _ _ _ _).mpr vTP)))
  have e5 := setNextW?_eq dTP v5 F
  refine ⟨(((((s.updSlot XN { s.slotLink XN with previous := P }).updSlot XP
      { (s.updSlot XN { s.slotLink XN with previous := P }).slotLink XP with
          next := N }).updSlot XF
      { previous := TP, next := TN }).updSlot XTN
      { (((s.updSlot XN { s.slotLink XN with previous := P }).updSlot XP
      { (s.updSlot XN { s.slotLink XN with previous := P }).slotLink XP with
          next := N }).updSlot XF
      { previous := TP, next := TN }).slotLink XTN with
          previous := F }).updSlot XTP
      { ((((s.updSlot XN { s.slotLink XN with previous := P }).updSlot XP
      { (s.updSlot XN { s.slotLink XN with previous := P }).slotLink XP with
          next := N }).updSlot XF
      { previous := TP, next := TN }).updSlot XTN
      { (((s.updSlot XN { s.slotLink XN with previous := P }).updSlot XP
      { (s.updSlot XN { s.slotLink XN with previous := P }).slotLink XP with
          next := N }).updSlot XF
      { previous := TP, next := TN }).slotLink XTN with
          previous := F }).slotLink XTP with
          next := F }), ?_, ?_, ?_, ?_, ?_, ?_⟩
  · show (s.move_to? F { previous := P, next := N }
      { previous := TP, next := TN }) = _
    simp only [move_to?, Option.bind_eq_bind, Option.some_bind, e1, e2, e3,
      e4, e5]
    rfl
  · simp only [updSlot_heads]
  · simp only [updSlot_nodes]
  · simp only [updSlot_payload]
  · intro Y
    by_cases h5 : Y = XTP
    · subst h5
      rw [slotLink_updSlot_self, if_pos rfl]
    · rw [slotLink_updSlot_ne _ _ h5, if_neg h5, next_after_setPrev]
      by_cases h3 : Y = XF
      · subst h3
        rw [slotLink_updSlot_self, if_pos rfl]
      · rw [slotLink_updSlot_ne _ _ h3, if_neg h3]
        by_cases h2 : Y = XP
        · subst h2
          rw [slotLink_updSlot_self, if_pos rfl]
        · rw [slotLink_updSlot_ne _ _ h2, if_neg h2, next_after_setPrev]
  · intro Y
    rw [prev_after_setNext]
    by_cases h4 : Y = XTN
    · subst h4
      rw [slotLink_updSlot_self, if_pos rfl]
    · rw [slotLink_updSlot_ne _ _ h4, if_neg h4]
      by_cases h3 : Y = XF
      · subst h3
        rw [slotLink_updSlot_self, if_pos rfl]
      · rw [slotLink_updSlot_ne _ _ h3, if_neg h3, prev_after_setNext]
        by_cases h1 : Y = XN
        · subst h1
          rw [slotLink_updSlot_self, if_pos rfl]
        · rw [slotLink_updSlot_ne _ _ h1, if_neg h1]

end AcidList

lemma fIter_succ_inner (f : Nat → Nat) (w k : Nat) :
    fIter f w (k + 1) = fIter f (f w) k := by
  have : k + 1 = 1 + k := Nat.add_comm k 1
  rw [this, fIter_add]
  rfl

/-- Surgery on an invertible successor: rerouting `P → N`, `TP → F`,
`F → TN` (with the matching predecessor reroutes) keeps it invertible,
and the new orbit relation is the old one with `F` read as `TN`. -/
lemma orbit_transfer {V : Nat → Prop} {B : Nat} (σ π σ2 π2 : Nat → Nat)
    (F P N TP TN : Nat)
    (hmap : ∀ w, V w → V (σ w))
    (hmapp : ∀ w, V w → V (π w))
    (hinva : ∀ w, V w → π (σ w) = w)
    (hinvb : ∀ w, V w → σ (π w) = w)
    (hbnd : ∀ w, V w → w < B)
    (hVF : V F) (hVP : V P) (hVN : V N) (hVTP : V TP) (hVTN : V TN)
    (hσF : σ F = N) (hπF : π F = P) (hσP : σ P = F) (hπN : π N = F)
    (hσTP : σ TP = TN) (hπTN : π TN = TP)
    (hFN : F ≠ N) (hFP : F ≠ P) (hNTN : N ≠ TN) (hPTP : P ≠ TP)
    (hFTN : F ≠ TN) (hFTP : F ≠ TP)
    (hσ2 : ∀ w, V w → σ2 w =
      if w = TP then F else if w = F then TN else if w = P then N else σ w)
    (hπ2 : ∀ w, V w → π2 w =
      if w = TN then F else if w = F then TP else if w = N then P else π w) :
    (∀ w, V w → V (σ2 w)) ∧
    (∀ w, V w → π2 (σ2 w) = w ∧ σ2 (π2 w) = w) ∧
    (∀ x y, V x → V y → (SameOrb σ2 x y ↔
      SameOrb σ (if x = F then TN else x) (if y = F then TN else y))) := by
  have hTNF : TN ≠ F := fun hc => hFTN hc.symm
  have hNF : N ≠ F := fun hc => hFN hc.symm
  have hPF : P ≠ F := fun hc => hFP hc.symm
  have hTPF : TP ≠ F := fun hc => hFTP hc.symm
  have hmap2 : ∀ w, V w → V (σ2 w) := by
    intro w hw
    rw [hσ2 w hw]
    split_ifs
    · exact hVF
    · exact hVTN
    · exact hVN
    · exact hmap w hw
  have hinv2a : ∀ w, V w → π2 (σ2 w) = w := by
    intro w hw
    rw [hσ2 w hw]
    split_ifs with h1 h2 h3
    · rw [hπ2 F hVF, if_neg hFTN, if_pos rfl, h1]
    · rw [hπ2 TN hVTN, if_pos rfl, h2]
    · rw [hπ2 N hVN, if_neg hNTN, if_neg hNF, if_pos rfl, h3]
    · have c1 : σ w ≠ TN := by
        intro hc
        have hx := hinva w hw
        rw [hc, hπTN] at hx
        exact h1 hx.symm
      have c2 : σ w ≠ F := by
        intro hc
        have hx := hinva w hw
        rw [hc, hπF] at hx
        exact h3 hx.symm
      have c3 : σ w ≠ N := by
        intro hc
        have hx := hinva w hw
        rw [hc, hπN] at hx
        exact h2 hx.symm
      rw [hπ2 (σ w) (hmap w hw), if_neg c1, if_neg c2, if_neg c3]
      exact hinva w hw
  have hinv2b : ∀ w, V w → σ2 (π2 w) = w := by
    intro w hw
    rw [hπ2 w hw]
    split_ifs with h1 h2 h3
    · rw [hσ2 F hVF, if_neg hFTP, if_pos rfl, h1]
    · rw [hσ2 TP hVTP, if_pos rfl, h2]
    · rw [hσ2 P hVP, if_neg hPTP, if_neg hPF, if_pos rfl, h3]
    · have c1 : π w ≠ TP := by
        intro hc
        have hx := hinvb w hw
        rw [hc, hσTP] at hx
        exact h1 hx.symm
      have c2 : π w ≠ F := by
        intro hc
        have hx := hinvb w hw
        rw [hc, hσF] at hx
        exact h3 hx.symm
      have c3 : π w ≠ P := by
        intro hc
        have hx := hinvb w hw
        rw [hc, hσP] at hx
        exact h2 hx.symm
      rw [hσ2 (π w) (hmapp w hw), if_neg c1, if_neg c2, if_neg c3]
      exact hinvb w hw
  refine ⟨hmap2, fun w hw => ⟨hinv2a w hw, hinv2b w hw⟩, ?_⟩
  have hφV : ∀ x, V x → V (if x = F then TN else x) := by
    intro x hx
    split_ifs
    · exact hVTN
    · exact hx
  have hφF : ∀ x, (if x = F then TN else x) ≠ F := by
    intro x
    split_ifs with hx
    · exact hTNF
    · exact hx
  have hσ2TP : σ2 TP = F := by
    rw [hσ2 TP hVTP, if_pos rfl]
  have hσ2F : σ2 F = TN := by
    rw [hσ2 F hVF, if_neg hFTP, if_pos rfl]
  have hσ2P : σ2 P = N := by
    rw [hσ2 P hVP, if_neg hPTP, if_neg hPF, if_pos rfl]
  have edge_fwd : ∀ z, V z →
      SameOrb σ (if z = F then TN else z) (if σ2 z = F then TN else σ2 z) := by
    intro z hz
    by_cases h1 : z = TP
    · rw [h1, hσ2TP, if_pos rfl, if_neg hTPF, ← hσTP]
      exact sameOrb_step σ TP
    · by_cases h2 : z = F
      · rw [h2, hσ2F, if_pos rfl, if_neg hTNF]
        exact sameOrb_refl σ TN
      · by_cases h3 : z = P
        · rw [h3, hσ2P, if_neg hPF, if_neg hNF]
          refine ⟨2, ?_⟩
          show σ (σ P) = N
          rw [hσP, hσF]
        · have hz2 : σ2 z = σ z := by
            rw [hσ2 z hz, if_neg h1, if_neg h2, if_neg h3]
          rw [hz2, if_neg h2]
          have h4 : σ z ≠ F := by
            intro hc
            apply h3
            have hx := hinva z hz
            rw [hc, hπF] at hx
            exact hx.symm
          rw [if_neg h4]
          exact sameOrb_step σ z
  have T1 : ∀ k x y, V x → fIter σ2 x k = y →
      SameOrb σ (if x = F then TN else x) (if y = F then TN else y) := by
    intro k
    induction k with
    | zero =>
      intro x y hx hxy
      have hyx : y = x := hxy.symm
      rw [hyx]
      exact sameOrb_refl σ _
    | succ k ih =>
      intro x y hx hxy
      have hstep : σ2 (fIter σ2 x k) = y := hxy
      have hVz : V (fIter σ2 x k) := fIter_mem hmap2 hx k
      have h1 := ih x (fIter σ2 x k) hx rfl
      have h2 := edge_fwd (fIter σ2 x k) hVz
      rw [hstep] at h2
      exact sameOrb_trans h1 h2
  have T2 : ∀ k a b, V a → fIter σ a k = b → a ≠ F → b ≠ F →
      SameOrb σ2 a b := by
    intro k
    induction k using Nat.strong_induction_on with
    | _ k ih =>
      intro a b ha hab haF hbF
      rcases k with _ | k1
      · have hba : b = a := hab.symm
        rw [hba]
        exact sameOrb_refl σ2 a
      · rw [fIter_succ_inner] at hab
        by_cases hσa : σ a = F
        · have haP : a = P := by
            have hx := hinva a ha
            rw [hσa, hπF] at hx
            exact hx.symm
          rcases k1 with _ | k2
          · exfalso
            apply hbF
            have hb2 : σ a = b := hab
            rw [hσa] at hb2
            exact hb2.symm
          · rw [hσa, fIter_succ_inner, hσF] at hab
            have hNb : SameOrb σ2 N b :=
              ih k2 (by omega) N b hVN hab hNF hbF
            have haN : SameOrb σ2 a N := by
              rw [haP, ← hσ2P]
              exact sameOrb_step σ2 P
            exact sameOrb_trans haN hNb
        · have hedge : SameOrb σ2 a (σ a) := by
            by_cases h1 : a = TP
            · refine ⟨2, ?_⟩
              show σ2 (σ2 a) = σ a
              rw [h1, hσ2TP, hσ2F, hσTP]
            · have h3 : a ≠ P := by
                intro hc
                rw [hc] at hσa
                exact hσa hσP
              have h4 : σ2 a = σ a := by
                rw [hσ2 a ha, if_neg h1, if_neg haF, if_neg h3]
              rw [← h4]
              exact sameOrb_step σ2 a
          have htail : SameOrb σ2 (σ a) b :=
            ih k1 (by omega) (σ a) b (hmap a ha) hab hσa hbF
          exact sameOrb_trans hedge htail
  intro x y hx hy
  constructor
  · intro h
    obtain ⟨k, hk⟩ := h
    exact T1 k x y hx hk
  · intro h
    obtain ⟨k, hk⟩ := h
    have hmid : SameOrb σ2 (if x = F then TN else x)
        (if y = F then TN else y) :=
      T2 k _ _ (hφV x hx) hk (hφF x) (hφF y)
    have hxφ : SameOrb σ2 x (if x = F then TN else x) := by
      by_cases h1 : x = F
      · rw [if_pos h1, h1, ← hσ2F]
        exact sameOrb_step σ2 F
      · rw [if_neg h1]
        exact sameOrb_refl σ2 x
    have hyφ : SameOrb σ2 y (if y = F then TN else y) := by
      by_cases h1 : y = F
      · rw [if_pos h1, h1, ← hσ2F]
        exact sameOrb_step σ2 F
      · rw [if_neg h1]
        exact sameOrb_refl σ2 y
    have hφy : SameOrb σ2 (if y = F then TN else y) y :=
      sameOrb_symm hmap2 hinv2a hbnd hy hyφ
    exact sameOrb_trans (sameOrb_trans hxφ hmid) hφy

namespace AcidList

variable {T : Type}

lemma onHeadCycle_iff (s : AcidList T) (h i : Nat) :
    s.onHeadCycle h i ↔ SameOrb s.nextW (LinkIndex.to_node (.Head h)) i := by
  constructor
  · rintro ⟨k, hk⟩
    refine ⟨k, ?_⟩
    rw [← nextIter_eq_fIter]
    exact hk
  · rintro ⟨k, hk⟩
    refine ⟨k, ?_⟩
    rw [nextIter_eq_fIter]
    exact hk

/-- Under the invariants, every valid word is reached from exactly one
head along `next`. -/
lemma unique_head_orbit (s : AcidList T) (hWF : s.WF) (hI1 : s.Inv1)
    (hI2 : s.Inv2) (hI3 : s.Inv3) (hI4 : s.Inv4) {w : Nat}
    (hw : s.ValidW w) :
    ∃! h, h < s.heads ∧ SameOrb s.nextW (LinkIndex.to_node (.Head h)) w := by
  rcases hw with hwn | ⟨ha, hha, hwe⟩
  · obtain ⟨h, ⟨hh, hcyc⟩, huniq⟩ := hI3 w hwn
    refine ⟨h, ⟨hh, (onHeadCycle_iff s h w).1 hcyc⟩, ?_⟩
    intro h2 hpair
    exact huniq h2 ⟨hpair.1, (onHeadCycle_iff s h2 w).2 hpair.2⟩
  · have hENC : LinkIndex.to_node (.Head ha) = 2 ^ 31 + ha :=
      to_node_head (lt_of_lt_of_le hha hWF.2.1)
    have hwE : w = LinkIndex.to_node (.Head ha) := by rw [hENC, hwe]
    rw [hwE]
    refine ⟨ha, ⟨hha, sameOrb_refl _ _⟩, ?_⟩
    intro h2 hpair
    obtain ⟨hh2, horb⟩ := hpair
    by_cases hnode : ∃ i, i < s.nodes ∧
        SameOrb s.nextW (LinkIndex.to_node (.Head ha)) i
    · obtain ⟨i, hi, hio⟩ := hnode
      obtain ⟨h0, hex, huniq⟩ := hI3 i hi
      have e1 : h2 = h0 :=
        huniq h2 ⟨hh2, (onHeadCycle_iff s h2 i).2 (sameOrb_trans horb hio)⟩
      have e2 : ha = h0 :=
        huniq ha ⟨hha, (onHeadCycle_iff s ha i).2 hio⟩
      rw [e1, e2]
    · push_neg at hnode
      have hself := hI4 ha hha
        (fun i hi hcyc => hnode i hi ((onHeadCycle_iff s ha i).1 hcyc))
      have hconst : ∀ k, fIter s.nextW (LinkIndex.to_node (.Head ha)) k
          = LinkIndex.to_node (.Head ha) := by
        intro k
        induction k with
        | zero => rfl
        | succ k ih =>
          show s.nextW (fIter s.nextW (LinkIndex.to_node (.Head ha)) k) = _
          rw [ih, hself.1]
      have hsym : SameOrb s.nextW (LinkIndex.to_node (.Head ha))
          (LinkIndex.to_node (.Head h2)) :=
        sameOrb_symm (validW_maps_next hWF hI1 hI2)
          (fun u hu => (inv2_word hWF hI2 hu).1) (validW_bnd hWF)
          (validW_enc hWF (show s.ValidIdx (.Head h2) from hh2)) horb
      obtain ⟨m, hm⟩ := hsym
      rw [hconst m] at hm
      have hne : (2 : Nat) ^ 31 + ha = 2 ^ 31 + h2 := by
        rw [← hENC, ← to_node_head (lt_of_lt_of_le hh2 hWF.2.1), hm]
      omega

/-- Relinking a node before/after a distinct, currently-linked target
position preserves all the §3 invariants: the core of C1. `TN` is the
target's encoded word and `TP` its stored predecessor. -/
lemma move_core (s : AcidList T) (hWF : s.WF) (hI1 : s.Inv1) (hI2 : s.Inv2)
    (hI3 : s.Inv3) (hI4 : s.Inv4) {F P N TP TN : Nat} (hF : F < s.nodes)
    (hPdef : (s.slotLink (.Node F)).previous = P)
    (hNdef : (s.slotLink (.Node F)).next = N)
    (hTNv : s.ValidW TN) (hTPdef : s.prevW TN = TP)
    (hNTN : N ≠ TN) (hPTP : P ≠ TP) (hFTN : F ≠ TN) (hFTP : F ≠ TP) :
    ∃ s', s.move_to? F { previous := P, next := N }
        { previous := TP, next := TN } = some s' ∧
      s'.heads = s.heads ∧ s'.nodes = s.nodes ∧ s'.payload = s.payload ∧
      s'.WF ∧ s'.Inv1 ∧ s'.Inv2 ∧ s'.Inv3 ∧ s'.Inv4 := by
  have hFv : s.ValidIdx (.Node F) := hF
  have hFw : s.ValidW F := Or.inl hF
  have hPv : s.ValidW P := hPdef ▸ (stored_valid hWF hI1 hI2 hFv).2
  have hNv : s.ValidW N := hNdef ▸ (stored_valid hWF hI1 hI2 hFv).1
  have hTPv : s.ValidW TP := hTPdef ▸ validW_maps_prev hWF hI1 hI2 TN hTNv
  have hdecF : LinkIndex.from_node F = .Node F :=
    from_node_node (lt_of_lt_of_le hF hWF.2.2)
  have hσF : s.nextW F = N := by
    rw [nextW, hdecF]
    exact hNdef
  have hπF : s.prevW F = P := by
    rw [prevW, hdecF]
    exact hPdef
  have hπN : s.prevW N = F := by
    have hx := (inv2_word hWF hI2 hFw).1
    rw [hσF] at hx
    exact hx
  have hσP : s.nextW P = F := by
    have hx := (inv2_word hWF hI2 hFw).2
    rw [hπF] at hx
    exact hx
  have hσTP : s.nextW TP = TN := by
    have hx := (inv2_word hWF hI2 hTNv).2
    rw [hTPdef] at hx
    exact hx
  have hFN : F ≠ N := by
    intro hc
    apply node_not_fixed hWF hI1 hI2 hI3 hF
    rw [hσF, ← hc]
  have hFP : F ≠ P := by
    intro hc
    apply node_not_fixed hWF hI1 hI2 hI3 hF
    rw [hc, hσP]
    exact hc
  obtain ⟨vP, eP⟩ := validW_spec hWF hPv
  obtain ⟨vN, eN⟩ := validW_spec hWF hNv
  obtain ⟨vTN, eTN⟩ := validW_spec hWF hTNv
  obtain ⟨vTP, eTP⟩ := validW_spec hWF hTPv
  obtain ⟨s', hmove, hh, hn, hpay, hnextY, hprevY⟩ :=
    move_to_char s F P N TP TN hdecF hFv rfl vP rfl vN rfl vTN rfl vTP
  have hVIdx : ∀ idx, (s'.ValidIdx idx ↔ s.ValidIdx idx) := by
    intro idx
    cases idx with
    | Node i =>
      show i < s'.nodes ↔ i < s.nodes
      rw [hn]
    | Head h =>
      show h < s'.heads ↔ h < s.heads
      rw [hh]
  have hVW : ∀ w, (s'.ValidW w ↔ s.ValidW w) := by
    intro w
    rw [ValidW, ValidW, hh, hn]
  have hcond : ∀ w u : Nat, s.ValidW w → (LinkIndex.from_node u).to_node = u →
      ((LinkIndex.from_node w = LinkIndex.from_node u) ↔ w = u) := by
    intro w u hw hu
    obtain ⟨vw, ew⟩ := validW_spec hWF hw
    constructor
    · intro hc
      rw [← ew, hc, hu]
    · intro hc
      rw [hc]
  have hσ2 : ∀ w, s.ValidW w → s'.nextW w =
      if w = TP then F else if w = F then TN else if w = P then N
      else s.nextW w := by
    intro w hw
    obtain ⟨vw, ew⟩ := validW_spec hWF hw
    show (s'.slotLink (LinkIndex.from_node w)).next = _
    rw [hnextY (LinkIndex.from_node w)]
    have c1 := hcond w TP hw eTP
    have c2 : (LinkIndex.from_node w = LinkIndex.Node F) ↔ w = F := by
      rw [← hdecF]
      exact hcond w F hw (by rw [hdecF]; rfl)
    have c3 := hcond w P hw eP
    by_cases h1 : w = TP
    · rw [if_pos (c1.mpr h1), if_pos h1]
    · rw [if_neg (fun hc => h1 (c1.mp hc)), if_neg h1]
      by_cases h2 : w = F
      · rw [if_pos (c2.mpr h2), if_pos h2]
      · rw [if_neg (fun hc => h2 (c2.mp hc)), if_neg h2]
        by_cases h3 : w = P
        · rw [if_pos (c3.mpr h3), if_pos h3]
        · rw [if_neg (fun hc => h3 (c3.mp hc)), if_neg h3]
          rfl
  have hπ2 : ∀ w, s.ValidW w → s'.prevW w =
      if w = TN then F else if w = F then TP else if w = N then P
      else s.prevW w := by
    intro w hw
    obtain ⟨vw, ew⟩ := validW_spec hWF hw
    show (s'.slotLink (LinkIndex.from_node w)).previous = _
    rw [hprevY (LinkIndex.from_node w)]
    have c1 := hcond w TN hw eTN
    have c2 : (LinkIndex.from_node w = LinkIndex.Node F) ↔ w = F := by
      rw [← hdecF]
      exact hcond w F hw (by rw [hdecF]; rfl)
    have c3 := hcond w N hw eN
    by_cases h1 : w = TN
    · rw [if_pos (c1.mpr h1), if_pos h1]
    · rw [if_neg (fun hc => h1 (c1.mp hc)), if_neg h1]
      by_cases h2 : w = F
      · rw [if_pos (c2.mpr h2), if_pos h2]
      · rw [if_neg (fun hc => h2 (c2.mp hc)), if_neg h2]
        by_cases h3 : w = N
        · rw [if_pos (c3.mpr h3), if_pos h3]
        · rw [if_neg (fun hc => h3 (c3.mp hc)), if_neg h3]
          rfl
  obtain ⟨hmap2, hinv2, htransfer⟩ :=
    orbit_transfer (V := s.ValidW) (B := 2 ^ 31 + s.heads)
      s.nextW s.prevW s'.nextW s'.prevW F P N TP TN
      (validW_maps_next hWF hI1 hI2) (validW_maps_prev hWF hI1 hI2)
      (fun w hw => (inv2_word hWF hI2 hw).1)
      (fun w hw => (inv2_word hWF hI2 hw).2)
      (validW_bnd hWF) hFw hPv hNv hTPv hTNv
      hσF hπF hσP hπN hσTP hTPdef
      hFN hFP hNTN hPTP hFTN hFTP hσ2 hπ2
  have hHneF : ∀ h : Nat, LinkIndex.to_node (.Head h) ≠ F := by
    intro h hc
    have hge := to_node_head_ge h
    have : F < 2 ^ 31 := lt_of_lt_of_le hF hWF.2.2
    omega
  have htransferH : ∀ h i, h < s.heads → i < s.nodes →
      (SameOrb s'.nextW (LinkIndex.to_node (.Head h)) i ↔
        SameOrb s.nextW (LinkIndex.to_node (.Head h))
          (if i = F then TN else i)) := by
    intro h i hh hi
    have := htransfer (LinkIndex.to_node (.Head h)) i
      (validW_enc hWF (show s.ValidIdx (.Head h) from hh)) (Or.inl hi)
    rw [if_neg (hHneF h)] at this
    exact this
  refine ⟨s', hmove, hh, hn, hpay, ?_, ?_, ?_, ?_, ?_⟩
  · -- WF
    obtain ⟨a, b, c⟩ := hWF
    exact ⟨by rw [hh]; exact a, by rw [hh]; exact b, by rw [hn]; exact c⟩
  · -- Inv1
    intro idx hidx'
    have hidx : s.ValidIdx idx := (hVIdx idx).mp hidx'
    constructor
    · rw [hnextY idx]
      split_ifs
      · exact (hVIdx _).mpr (by rw [hdecF]; exact hF)
      · exact (hVIdx _).mpr vTN
      · exact (hVIdx _).mpr vN
      · exact (hVIdx _).mpr (hI1 idx hidx).1
    · rw [hprevY idx]
      split_ifs
      · exact (hVIdx _).mpr (by rw [hdecF]; exact hF)
      · exact (hVIdx _).mpr vTP
      · exact (hVIdx _).mpr vP
      · exact (hVIdx _).mpr (hI1 idx hidx).2
  · -- Inv2
    intro idx hidx'
    have hidx : s.ValidIdx idx := (hVIdx idx).mp hidx'
    exact hinv2 idx.to_node (validW_enc hWF hidx)
  · -- Inv3
    intro i hi'
    have hi : i < s.nodes := by
      rw [hn] at hi'
      exact hi'
    by_cases hiF : i = F
    · obtain ⟨h0, ⟨hh0, horb0⟩, huniq0⟩ :=
        unique_head_orbit s hWF hI1 hI2 hI3 hI4 hTNv
      refine ⟨h0, ⟨by rw [hh]; exact hh0, ?_⟩, ?_⟩
      · rw [onHeadCycle_iff]
        apply (htransferH h0 i hh0 hi).mpr
        rw [if_pos hiF]
        exact horb0
      · intro h2 hpair
        obtain ⟨hh2', hcyc2⟩ := hpair
        have hh2 : h2 < s.heads := by
          rw [hh] at hh2'
          exact hh2'
        apply huniq0 h2
        refine ⟨hh2, ?_⟩
        have := (htransferH h2 i hh2 hi).mp ((onHeadCycle_iff s' h2 i).1 hcyc2)
        rw [if_pos hiF] at this
        exact this
    · obtain ⟨h0, ⟨hh0, hcyc0⟩, huniq0⟩ := hI3 i hi
      refine ⟨h0, ⟨by rw [hh]; exact hh0, ?_⟩, ?_⟩
      · rw [onHeadCycle_iff]
        apply (htransferH h0 i hh0 hi).mpr
        rw [if_neg hiF]
        exact (onHeadCycle_iff s h0 i).1 hcyc0
      · intro h2 hpair
        obtain ⟨hh2', hcyc2⟩ := hpair
        have hh2 : h2 < s.heads := by
          rw [hh] at hh2'
          exact hh2'
        apply huniq0 h2
        refine ⟨hh2, ?_⟩
        rw [onHeadCycle_iff]
        have := (htransferH h2 i hh2 hi).mp ((onHeadCycle_iff s' h2 i).1 hcyc2)
        rw [if_neg hiF] at this
        exact this
  · -- Inv4
    intro h hh' hempty
    have hhd : h < s.heads := by
      rw [hh] at hh'
      exact hh'
    have HV : s.ValidW (LinkIndex.to_node (.Head h)) :=
      validW_enc hWF (show s.ValidIdx (.Head h) from hhd)
    have HneF : LinkIndex.to_node (.Head h) ≠ F := hHneF h
    have hempty' : ∀ i, i < s.nodes →
        ¬ SameOrb s'.nextW (LinkIndex.to_node (.Head h)) i := by
      intro i hi horb
      exact hempty i (by rw [hn]; exact hi) ((onHeadCycle_iff s' h i).2 horb)
    have goal1 : s'.nextW (LinkIndex.to_node (.Head h))
        = LinkIndex.to_node (.Head h) := by
      by_cases hHTP : LinkIndex.to_node (.Head h) = TP
      · exfalso
        apply hempty' F hF
        refine ⟨1, ?_⟩
        show s'.nextW (LinkIndex.to_node (.Head h)) = F
        rw [hσ2 _ HV, if_pos hHTP]
      · by_cases hHP : LinkIndex.to_node (.Head h) = P
        · have hσ2H : s'.nextW (LinkIndex.to_node (.Head h)) = N := by
            rw [hσ2 _ HV, if_neg hHTP, if_neg HneF, if_pos hHP]
          by_cases hNH : N = LinkIndex.to_node (.Head h)
          · rw [hσ2H, hNH]
          · exfalso
            by_cases hNnode : N < s.nodes
            · exact hempty' N hNnode ⟨1, hσ2H⟩
            · rcases hNv with hc | ⟨h2, hh2, hNe⟩
              · exact hNnode hc
              · have horb1 : SameOrb s.nextW (LinkIndex.to_node (.Head h))
                    F := by
                  refine ⟨1, ?_⟩
                  show s.nextW (LinkIndex.to_node (.Head h)) = F
                  rw [hHP, hσP]
                have hE2 : LinkIndex.to_node (.Head h2) = N := by
                  rw [to_node_head (lt_of_lt_of_le hh2 hWF.2.1), ← hNe]
                have horb2 : SameOrb s.nextW (LinkIndex.to_node (.Head h2))
                    F := by
                  rw [hE2]
                  have hFN' : SameOrb s.nextW F N := ⟨1, hσF⟩
                  exact sameOrb_symm (validW_maps_next hWF hI1 hI2)
                    (fun u hu => (inv2_word hWF hI2 hu).1) (validW_bnd hWF)
                    hFw hFN'
                obtain ⟨h0, _, huniq⟩ :=
                  unique_head_orbit s hWF hI1 hI2 hI3 hI4 hFw
                have e1 := huniq h ⟨hhd, horb1⟩
                have e2 := huniq h2 ⟨hh2, horb2⟩
                apply hNH
                rw [← hE2, e2, ← e1]
        · have hσ2H : s'.nextW (LinkIndex.to_node (.Head h))
              = s.nextW (LinkIndex.to_node (.Head h)) := by
            rw [hσ2 _ HV, if_neg hHTP, if_neg HneF, if_neg hHP]
          have hnotF : ¬ SameOrb s.nextW (LinkIndex.to_node (.Head h)) F := by
            intro horbF
            have hPF' : SameOrb s.nextW P F := ⟨1, hσP⟩
            have hFP' : SameOrb s.nextW F P :=
              sameOrb_symm (validW_maps_next hWF hI1 hI2)
                (fun u hu => (inv2_word hWF hI2 hu).1) (validW_bnd hWF)
                hPv hPF'
            have hHPorb : SameOrb s.nextW (LinkIndex.to_node (.Head h)) P :=
              sameOrb_trans horbF hFP'
            by_cases hPn : P < s.nodes
            · apply hempty' P hPn
              apply (htransferH h P hhd hPn).mpr
              rw [if_neg (fun hc => hFP hc.symm)]
              exact hHPorb
            · rcases hPv with hc | ⟨h3, hh3, hPe⟩
              · exact hPn hc
              · have hE3 : LinkIndex.to_node (.Head h3) = P := by
                  rw [to_node_head (lt_of_lt_of_le hh3 hWF.2.1), ← hPe]
                have horb3 : SameOrb s.nextW (LinkIndex.to_node (.Head h3))
                    F := by
                  refine ⟨1, ?_⟩
                  show s.nextW (LinkIndex.to_node (.Head h3)) = F
                  rw [hE3, hσP]
                obtain ⟨h0, _, huniq⟩ :=
                  unique_head_orbit s hWF hI1 hI2 hI3 hI4 hFw
                have e1 := huniq h ⟨hhd, horbF⟩
                have e2 := huniq h3 ⟨hh3, horb3⟩
                apply hHP
                rw [← hE3, e2, ← e1]
          have hempty0 : ∀ i, i < s.nodes → ¬ s.onHeadCycle h i := by
            intro i hi hcyc
            rw [onHeadCycle_iff] at hcyc
            by_cases hiF : i = F
            · rw [hiF] at hcyc
              exact hnotF hcyc
            · apply hempty' i hi
              apply (htransferH h i hhd hi).mpr
              rw [if_neg hiF]
              exact hcyc
          have hfix := hI4 h hhd hempty0
          rw [hσ2H, hfix.1]
    refine ⟨goal1, ?_⟩
    have hx := (hinv2 _ HV).1
    rw [goal1] at hx
    exact hx

end AcidList

lemma twoNodeState_WF : twoNodeState.WF := by
  refine ⟨by decide, by decide, by decide⟩

lemma twoNodeState_Inv1 : twoNodeState.Inv1 := by
  intro idx hidx
  cases idx with
  | Node i =>
    have hi : i < 2 := hidx
    interval_cases i
    · exact ⟨by decide, by decide⟩
    · exact ⟨by decide, by decide⟩
  | Head h =>
    have hh : h < 1 := hidx
    interval_cases h
    exact ⟨by decide, by decide⟩

lemma twoNodeState_Inv2 : twoNodeState.Inv2 := by
  intro idx hidx
  cases idx with
  | Node i =>
    have hi : i < 2 := hidx
    interval_cases i
    · exact ⟨by decide, by decide⟩
    · exact ⟨by decide, by decide⟩
  | Head h =>
    have hh : h < 1 := hidx
    interval_cases h
    exact ⟨by decide, by decide⟩

lemma twoNodeState_Inv3 : twoNodeState.Inv3 := by
  intro i hi
  have hi2 : i < 2 := hi
  interval_cases i
  · exact ⟨0, ⟨by decide, ⟨1, by decide⟩⟩, fun y hy => by
      have hy1 : y < 1 := hy.1
      omega⟩
  · exact ⟨0, ⟨by decide, ⟨2, by decide⟩⟩, fun y hy => by
      have hy1 : y < 1 := hy.1
      omega⟩

lemma twoNodeState_Inv4 : twoNodeState.Inv4 := by
  intro h hh hempty
  have hh1 : h < 1 := hh
  have h0 : h = 0 := by omega
  rw [h0] at hempty
  exact absurd ⟨1, by decide⟩ (hempty 0 (by decide))

/-- C1: for every state satisfying the §3 invariants and every valid call
(`from_idx` a valid node index, the anchor a valid link index distinct
from `Node from_idx`), both `move_before` and `move_after` return
normally and the resulting state satisfies invariants (1)-(4) again,
with the head and node counts unchanged; this includes the aliasing
cases where the anchor is adjacent to the moved node (the no-op
short-circuits) and where the target list is empty. -/
theorem move_preserves_invariants {T : Type} (s : AcidList T)
    (from_idx : Nat) (anchor : LinkIndex)
    (hWF : s.WF) (hI1 : s.Inv1) (hI2 : s.Inv2) (hI3 : s.Inv3) (hI4 : s.Inv4)
    (hfrom : from_idx < s.nodes) (hanchor : s.ValidIdx anchor)
    (hne : LinkIndex.Node from_idx ≠ anchor) :
    (∃ s', s.move_before from_idx anchor = some s' ∧
        s'.heads = s.heads ∧ s'.nodes = s.nodes ∧
        s'.WF ∧ s'.Inv1 ∧ s'.Inv2 ∧ s'.Inv3 ∧ s'.Inv4) ∧
    (∃ s', s.move_after from_idx anchor = some s' ∧
        s'.heads = s.heads ∧ s'.nodes = s.nodes ∧
        s'.WF ∧ s'.Inv1 ∧ s'.Inv2 ∧ s'.Inv3 ∧ s'.Inv4) := by
  have hFv : s.ValidIdx (.Node from_idx) := hfrom
  have hFw : s.ValidW from_idx := Or.inl hfrom
  have hF31 : from_idx < 2 ^ 31 := lt_of_lt_of_le hfrom hWF.2.2
  have hdecF : LinkIndex.from_node from_idx = .Node from_idx :=
    from_node_node hF31
  have hlink : s.link? (.Node from_idx) =
      some (s.slotLink (.Node from_idx)) := by
    rw [AcidList.link?, if_pos hFv]
  have hlinkA : s.link? anchor = some (s.slotLink anchor) := by
    rw [AcidList.link?, if_pos hanchor]
  have hAw : s.ValidW anchor.to_node := AcidList.validW_enc hWF hanchor
  have hFTA : from_idx ≠ anchor.to_node := by
    intro hc
    exact hne (AcidList.enc_inj hWF hFv hanchor hc)
  have hσF : s.nextW from_idx = (s.slotLink (.Node from_idx)).next := by
    rw [AcidList.nextW, hdecF]
  have hπF : s.prevW from_idx = (s.slotLink (.Node from_idx)).previous := by
    rw [AcidList.prevW, hdecF]
  have hiF := AcidList.inv2_word hWF hI2 hFw
  have hiA := AcidList.inv2_word hWF hI2 hAw
  constructor
  · -- move_before
    rw [AcidList.move_before, if_neg hne]
    simp only [hlink, Option.bind_eq_bind, Option.some_bind]
    by_cases hsc : (s.slotLink (.Node from_idx)).next = anchor.to_node
    · rw [if_pos hsc]
      exact ⟨s, rfl, rfl, rfl, hWF, hI1, hI2, hI3, hI4⟩
    · rw [if_neg hsc]
      simp only [hlinkA, Option.bind_eq_bind, Option.some_bind]
      have hTPdef : s.prevW anchor.to_node = (s.slotLink anchor).previous :=
        AcidList.prevW_enc hWF hanchor
      have hPTP : (s.slotLink (.Node from_idx)).previous ≠
          (s.slotLink anchor).previous := by
        intro hc
        apply hFTA
        have e1 : s.nextW ((s.slotLink (.Node from_idx)).previous)
            = from_idx := by
          rw [← hπF]
          exact hiF.2
        have e2 : s.nextW ((s.slotLink anchor).previous)
            = anchor.to_node := by
          rw [← hTPdef]
          exact hiA.2
        rw [← e1, hc, e2]
      have hFTP : from_idx ≠ (s.slotLink anchor).previous := by
        intro hc
        apply hsc
        have e2 : s.nextW ((s.slotLink anchor).previous)
            = anchor.to_node := by
          rw [← hTPdef]
          exact hiA.2
        rw [← hσF, hc, e2]
      obtain ⟨s', hmv, hh, hn, hpay, hWF', h1, h2, h3, h4⟩ :=
        AcidList.move_core s hWF hI1 hI2 hI3 hI4 hfrom rfl rfl
          hAw hTPdef hsc hPTP hFTA hFTP
      exact ⟨s', hmv, hh, hn, hWF', h1, h2, h3, h4⟩
  · -- move_after
    rw [AcidList.move_after, if_neg hne]
    simp only [hlink, Option.bind_eq_bind, Option.some_bind]
    by_cases hsc : (s.slotLink (.Node from_idx)).previous = anchor.to_node
    · rw [if_pos hsc]
      exact ⟨s, rfl, rfl, rfl, hWF, hI1, hI2, hI3, hI4⟩
    · rw [if_neg hsc]
      simp only [hlinkA, Option.bind_eq_bind, Option.some_bind]
      have hTNv : s.ValidW (s.slotLink anchor).next :=
        (AcidList.stored_valid hWF hI1 hI2 hanchor).1
      have hσA : s.nextW anchor.to_node = (s.slotLink anchor).next :=
        AcidList.nextW_enc hWF hanchor
      have hTPdef : s.prevW ((s.slotLink anchor).next) = anchor.to_node := by
        rw [← hσA]
        exact hiA.1
      have hNTN : (s.slotLink (.Node from_idx)).next ≠
          (s.slotLink anchor).next := by
        intro hc
        apply hFTA
        have e1 : s.prevW ((s.slotLink (.Node from_idx)).next)
            = from_idx := by
          rw [← hσF]
          exact hiF.1
        rw [← e1, hc, hTPdef]
      have hFTN : from_idx ≠ (s.slotLink anchor).next := by
        intro hc
        apply hsc
        rw [← hπF, hc, hTPdef]
      obtain ⟨s', hmv, hh, hn, hpay, hWF', h1, h2, h3, h4⟩ :=
        AcidList.move_core s hWF hI1 hI2 hI3 hI4 hfrom rfl rfl
          hTNv hTPdef hNTN hsc hFTN hFTA
      exact ⟨s', hmv, hh, hn, hWF', h1, h2, h3, h4⟩

theorem move_preserves_invariants_witness :
    (∃ s', twoNodeState.move_before 1 (.Node 0) = some s' ∧
        s'.heads = twoNodeState.heads ∧ s'.nodes = twoNodeState.nodes ∧
        s'.WF ∧ s'.Inv1 ∧ s'.Inv2 ∧ s'.Inv3 ∧ s'.Inv4) ∧
    (∃ s', twoNodeState.move_after 1 (.Node 0) = some s' ∧
        s'.heads = twoNodeState.heads ∧ s'.nodes = twoNodeState.nodes ∧
        s'.WF ∧ s'.Inv1 ∧ s'.Inv2 ∧ s'.Inv3 ∧ s'.Inv4) :=
  move_preserves_invariants twoNodeState 1 (.Node 0)
    twoNodeState_WF twoNodeState_Inv1 twoNodeState_Inv2 twoNodeState_Inv3
    twoNodeState_Inv4 (by decide) (by decide) (by decide)

/-- With the invariants in force, a valid `move_before`/`move_after`
call (in-range node, in-range anchor, anchor distinct from the moved
node) never aborts. -/
lemma move_some {T : Type} (s : AcidList T)
    (hWF : s.WF) (hI1 : s.Inv1) (hI2 : s.Inv2) (hI3 : s.Inv3) (hI4 : s.Inv4)
    (from_idx : Nat) (anchor : LinkIndex)
    (hfrom : from_idx < s.nodes) (hanchor : s.ValidIdx anchor)
    (hne : LinkIndex.Node from_idx ≠ anchor) :
    (∃ s', s.move_before from_idx anchor = some s') ∧
    (∃ s', s.move_after from_idx anchor = some s') := by
  have hFv : s.ValidIdx (.Node from_idx) := hfrom
  have hFw : s.ValidW from_idx := Or.inl hfrom
  have hF31 : from_idx < 2 ^ 31 := lt_of_lt_of_le hfrom hWF.2.2
  have hdecF : LinkIndex.from_node from_idx = .Node from_idx :=
    from_node_node hF31
  have hlink : s.link? (.Node from_idx) =
      some (s.slotLink (.Node from_idx)) := by
    rw [AcidList.link?, if_pos hFv]
  have hlinkA : s.link? anchor = some (s.slotLink anchor) := by
    rw [AcidList.link?, if_pos hanchor]
  have hAw : s.ValidW anchor.to_node := AcidList.validW_enc hWF hanchor
  have hFTA : from_idx ≠ anchor.to_node := by
    intro hc
    exact hne (AcidList.enc_inj hWF hFv hanchor hc)
  have hσF : s.nextW from_idx = (s.slotLink (.Node from_idx)).next := by
    rw [AcidList.nextW, hdecF]
  have hπF : s.prevW from_idx = (s.slotLink (.Node from_idx)).previous := by
    rw [AcidList.prevW, hdecF]
  have hiF := AcidList.inv2_word hWF hI2 hFw
  have hiA := AcidList.inv2_word hWF hI2 hAw
  constructor
  · rw [AcidList.move_before, if_neg hne]
    simp only [hlink, Option.bind_eq_bind, Option.some_bind]
    by_cases hsc : (s.slotLink (.Node from_idx)).next = anchor.to_node
    · rw [if_pos hsc]
      exact ⟨s, rfl⟩
    · rw [if_neg hsc]
      simp only [hlinkA, Option.bind_eq_bind, Option.some_bind]
      have hTPdef : s.prevW anchor.to_node = (s.slotLink anchor).previous :=
        AcidList.prevW_enc hWF hanchor
      have hPTP : (s.slotLink (.Node from_idx)).previous ≠
          (s.slotLink anchor).previous := by
        intro hc
        apply hFTA
        have e1 : s.nextW ((s.slotLink (.Node from_idx)).previous)
            = from_idx := by
          rw [← hπF]
          exact hiF.2
        have e2 : s.nextW ((s.slotLink anchor).previous)
            = anchor.to_node := by
          rw [← hTPdef]
          exact hiA.2
        rw [← e1, hc, e2]
      have hFTP : from_idx ≠ (s.slotLink anchor).previous := by
        intro hc
        apply hsc
        have e2 : s.nextW ((s.slotLink anchor).previous)
            = anchor.to_node := by
          rw [← hTPdef]
          exact hiA.2
        rw [← hσF, hc, e2]
      obtain ⟨s', hmv, _⟩ :=
        AcidList.move_core s hWF hI1 hI2 hI3 hI4 hfrom rfl rfl
          hAw hTPdef hsc hPTP hFTA hFTP
      exact ⟨s', hmv⟩
  · rw [AcidList.move_after, if_neg hne]
    simp only [hlink, Option.bind_eq_bind, Option.some_bind]
    by_cases hsc : (s.slotLink (.Node from_idx)).previous = anchor.to_node
    · rw [if_pos hsc]
      exact ⟨s, rfl⟩
    · rw [if_neg hsc]
      simp only [hlinkA, Option.bind_eq_bind, Option.some_bind]
      have hTNv : s.ValidW (s.slotLink anchor).next :=
        (AcidList.stored_valid hWF hI1 hI2 hanchor).1
      have hσA : s.nextW anchor.to_node = (s.slotLink anchor).next :=
        AcidList.nextW_enc hWF hanchor
      have hTPdef : s.prevW ((s.slotLink anchor).next) = anchor.to_node := by
        rw [← hσA]
        exact hiA.1
      have hNTN : (s.slotLink (.Node from_idx)).next ≠
          (s.slotLink anchor).next := by
        intro hc
        apply hFTA
        have e1 : s.prevW ((s.slotLink (.Node from_idx)).next)
            = from_idx := by
          rw [← hσF]
          exact hiF.1
        rw [← e1, hc, hTPdef]
      have hFTN : from_idx ≠ (s.slotLink anchor).next := by
        intro hc
        apply hsc
        rw [← hπF, hc, hTPdef]
      obtain ⟨s', hmv, _⟩ :=
        AcidList.move_core s hWF hI1 hI2 hI3 hI4 hfrom rfl rfl
          hTNv hTPdef hNTN hsc hFTN hFTA
      exact ⟨s', hmv⟩

/-- On the one-head one-node state, `move_before 0 (Node (2^31))` has an
out-of-range anchor distinct from `Node 0`, yet returns normally: the
anchor's encoding equals node 0's stored `next` word (which encodes
`Head 0`), so the adjacency short-circuit fires before the anchor is
ever bounds-checked. -/
theorem move_anchor_bounds_counterexample :
    oneNodeState.move_before 0 (.Node (2 ^ 31)) = some oneNodeState ∧
    ¬ oneNodeState.ValidIdx (.Node (2 ^ 31)) ∧
    LinkIndex.Node 0 ≠ .Node (2 ^ 31) :=
  ⟨rfl, by decide, by decide⟩

/-- C7 (amended): `get?`/`set?` abort exactly when the node index is out
of range, `neighbors?` aborts exactly when its link index is out of
range, and — in a state satisfying the §3 invariants — `move_before`
(resp. `move_after`) aborts exactly when the anchor equals
`Node from_idx`, or `from_idx` is out of range, or the anchor is out of
range AND the moved node's stored `next` (resp. `previous`) word differs
from the anchor's encoding: the adjacency short-circuit returns before
the anchor is bounds-checked, so an out-of-range anchor whose encoding
matches that stored word does not abort. -/
theorem bounds_abort_characterization {T : Type} (s : AcidList T)
    (hWF : s.WF) (hI1 : s.Inv1) (hI2 : s.Inv2) (hI3 : s.Inv3) (hI4 : s.Inv4)
    (i from_idx : Nat) (v : T) (idx anchor : LinkIndex) :
    (s.get? i = none ↔ s.nodes ≤ i) ∧
    (s.set? i v = none ↔ s.nodes ≤ i) ∧
    (s.neighbors? idx = none ↔ ¬ s.ValidIdx idx) ∧
    (s.move_before from_idx anchor = none ↔
      (LinkIndex.Node from_idx = anchor ∨ s.nodes ≤ from_idx ∨
        ((s.slotLink (.Node from_idx)).next ≠ anchor.to_node ∧
          ¬ s.ValidIdx anchor))) ∧
    (s.move_after from_idx anchor = none ↔
      (LinkIndex.Node from_idx = anchor ∨ s.nodes ≤ from_idx ∨
        ((s.slotLink (.Node from_idx)).previous ≠ anchor.to_node ∧
          ¬ s.ValidIdx anchor))) := by
  refine ⟨?_, ?_, ?_, ?_, ?_⟩
  · rw [AcidList.get?]
    split_ifs with h
    · exact iff_of_false (by simp) (by omega)
    · exact iff_of_true rfl (by omega)
  · rw [AcidList.set?]
    split_ifs with h
    · exact iff_of_false (by simp) (by omega)
    · exact iff_of_true rfl (by omega)
  · rw [AcidList.neighbors?, AcidList.link?]
    split_ifs with h
    · exact iff_of_false (by simp) (not_not_intro h)
    · exact iff_of_true rfl h
  · constructor
    · intro hnone
      by_contra hR
      push_neg at hR
      obtain ⟨h1, h2, h3⟩ := hR
      by_cases hsc : (s.slotLink (.Node from_idx)).next = anchor.to_node
      · have hs : s.move_before from_idx anchor = some s := by
          rw [AcidList.move_before, if_neg h1]
          have hlink : s.link? (.Node from_idx) =
              some (s.slotLink (.Node from_idx)) := by
            rw [AcidList.link?, if_pos (show s.ValidIdx (.Node from_idx)
              from h2)]
          simp only [hlink, Option.bind_eq_bind, Option.some_bind]
          rw [if_pos hsc]
          rfl
        rw [hs] at hnone
        cases hnone
      · obtain ⟨⟨s', hs⟩, _⟩ := move_some s hWF hI1 hI2 hI3 hI4 from_idx
          anchor h2 (h3 hsc) h1
        rw [hs] at hnone
        cases hnone
    · rintro (h1 | h2 | ⟨h3, h4⟩)
      · rw [AcidList.move_before, if_pos h1]
      · rw [AcidList.move_before]
        have hnv : ¬ s.ValidIdx (.Node from_idx) := fun hc =>
          absurd (show from_idx < s.nodes from hc) (by omega)
        have hlink : s.link? (.Node from_idx) = none := by
          rw [AcidList.link?, if_neg hnv]
        split_ifs
        · rfl
        · simp only [hlink, Option.bind_eq_bind, Option.none_bind]
      · rw [AcidList.move_before]
        split_ifs with he
        · rfl
        · have hlinkA : s.link? anchor = none := by
            rw [AcidList.link?, if_neg h4]
          by_cases hf : from_idx < s.nodes
          · have hlink : s.link? (.Node from_idx) =
                some (s.slotLink (.Node from_idx)) := by
              rw [AcidList.link?, if_pos (show s.ValidIdx (.Node from_idx)
                from hf)]
            simp only [hlink, Option.bind_eq_bind, Option.some_bind]
            rw [if_neg h3]
            simp only [hlinkA, Option.bind_eq_bind, Option.none_bind]
          · have hlink : s.link? (.Node from_idx) = none := by
              rw [AcidList.link?, if_neg (show ¬ s.ValidIdx (.Node from_idx)
                from hf)]
            simp only [hlink, Option.bind_eq_bind, Option.none_bind]
  · constructor
    · intro hnone
      by_contra hR
      push_neg at hR
      obtain ⟨h1, h2, h3⟩ := hR
      by_cases hsc : (s.slotLink (.Node from_idx)).previous = anchor.to_node
      · have hs : s.move_after from_idx anchor = some s := by
          rw [AcidList.move_after, if_neg h1]
          have hlink : s.link? (.Node from_idx) =
              some (s.slotLink (.Node from_idx)) := by
            rw [AcidList.link?, if_pos (show s.ValidIdx (.Node from_idx)
              from h2)]
          simp only [hlink, Option.bind_eq_bind, Option.some_bind]
          rw [if_pos hsc]
          rfl
        rw [hs] at hnone
        cases hnone
      · obtain ⟨_, ⟨s', hs⟩⟩ := move_some s hWF hI1 hI2 hI3 hI4 from_idx
          anchor h2 (h3 hsc) h1
        rw [hs] at hnone
        cases hnone
    · rintro (h1 | h2 | ⟨h3, h4⟩)
      · rw [AcidList.move_after, if_pos h1]
      · rw [AcidList.move_after]
        have hnv : ¬ s.ValidIdx (.Node from_idx) := fun hc =>
          absurd (show from_idx < s.nodes from hc) (by omega)
        have hlink : s.link? (.Node from_idx) = none := by
          rw [AcidList.link?, if_neg hnv]
        split_ifs
        · rfl
        · simp only [hlink, Option.bind_eq_bind, Option.none_bind]
      · rw [AcidList.move_after]
        split_ifs with he
        · rfl
        · have hlinkA : s.link? anchor = none := by
            rw [AcidList.link?, if_neg h4]
          by_cases hf : from_idx < s.nodes
          · have hlink : s.link? (.Node from_idx) =
                some (s.slotLink (.Node from_idx)) := by
              rw [AcidList.link?, if_pos (show s.ValidIdx (.Node from_idx)
                from hf)]
            simp only [hlink, Option.bind_eq_bind, Option.some_bind]
            rw [if_neg h3]
            simp only [hlinkA, Option.bind_eq_bind, Option.none_bind]
          · have hlink : s.link? (.Node from_idx) = none := by
              rw [AcidList.link?, if_neg (show ¬ s.ValidIdx (.Node from_idx)
                from hf)]
            simp only [hlink, Option.bind_eq_bind, Option.none_bind]

theorem bounds_abort_characterization_witness :
    (twoNodeState.get? 5 = none ↔ twoNodeState.nodes ≤ 5) ∧
    (twoNodeState.set? 5 () = none ↔ twoNodeState.nodes ≤ 5) ∧
    (twoNodeState.neighbors? (.Head 0) = none ↔
      ¬ twoNodeState.ValidIdx (.Head 0)) ∧
    (twoNodeState.move_before 0 (.Head 0) = none ↔
      (LinkIndex.Node 0 = .Head 0 ∨ twoNodeState.nodes ≤ 0 ∨
        ((twoNodeState.slotLink (.Node 0)).next ≠
            (LinkIndex.Head 0).to_node ∧
          ¬ twoNodeState.ValidIdx (.Head 0)))) ∧
    (twoNodeState.move_after 0 (.Head 0) = none ↔
      (LinkIndex.Node 0 = .Head 0 ∨ twoNodeState.nodes ≤ 0 ∨
        ((twoNodeState.slotLink (.Node 0)).previous ≠
            (LinkIndex.Head 0).to_node ∧
          ¬ twoNodeState.ValidIdx (.Head 0)))) :=
  bounds_abort_characterization twoNodeState twoNodeState_WF
    twoNodeState_Inv1 twoNodeState_Inv2 twoNodeState_Inv3 twoNodeState_Inv4
    5 0 () (.Head 0) (.Head 0)

end AcidVerify